import Mathlib

/-! SC2-display: tachometer packet decoder

A shallow embedding of `src/main.cpp` (the spindle tachometer reader for the
SX2 mill / SC2 lathe) and theorems about its frame decoder and its capture cycle.

Conventions of the embedding
* `uint8_t` / `uint16_t` values are `Nat`, reduced `% 256` / `% 65536` at every
  assignment; `int` (16 bit on the AVR target) is `Int`, reduced by `int16`.
* `packet_bits` is a `List Nat` of raw `PIND` samples.  A read outside the
  array is undefined behaviour in C; the embedding makes it the result `none`.
* The `for` loops are recursive functions over a fuel argument.  Where the counter
  is a `uint8_t`, a loop that has not left after 256 iterations has seen
  every counter value satisfy its condition and never leaves; the callers pass
  fuel 257 and `none` also stands for that divergence.  The capture wait leaves
  when `count` reaches `MAXCOUNT` at the latest and gets fuel `MAXCOUNT + 1`.
* The capture cycle is modelled twice.  `Machine`, `step` and `run` interleave the
  handler `INT1_vect` with the statements of `loop`, one event at a time, from
  the state in which `setup` enables the interrupt; a store outside the array
  sets `fault` and freezes the state.  `capture_wait` and `loop_capture` give the
  main line alone, as a function of the values it reads from the volatile cursor.
-/

namespace SC2Display

/-! ## Constants (`#define`s) -/

def PACKET_BITS : Nat := 68

def PACKET_BITS_HEADER : Nat := 36

/-- Macro `#define PACKET_BITS_COUNT PACKET_BITS+PACKET_BITS_HEADER` (newer mill protocol);
every use in the source is in a context where the missing parentheses do not matter. -/
def PACKET_BITS_COUNT : Nat := PACKET_BITS + PACKET_BITS_HEADER

def MAXCOUNT : Nat := 503500

/-! ## Helper functions -/

/-- The expression `(packet_bits[i] & B00010000) ? 1 : 0` applied to one sample. -/
def line_level (sample : Nat) : Nat :=
  if sample &&& 0x10 ≠ 0 then 1 else 0

/-- Loop of `build_address`:
`for (i = start_address; i < start_address + 8; i++) ret = (ret << 1) ^ level;`
with `i`, `ret` of type `uint8_t`; the comparison is done in `int`, so
`start_address + 8` does not wrap. -/
def build_address_loop (packet_bits : List Nat) (start_address : Nat) :
    Nat → Nat → Nat → Option Nat
  | 0, _, _ => none
  | fuel + 1, i, ret =>
    if i < start_address + 8 then
      match packet_bits[i]? with
      | none => none
      | some sample =>
        build_address_loop packet_bits start_address fuel ((i + 1) % 256)
          (((ret <<< 1) ^^^ line_level sample) % 256)
    else some ret

/-- Function `uint8_t build_address(uint8_t start_address)`. -/
def build_address (packet_bits : List Nat) (start_address : Nat) : Option Nat :=
  let start_address :=
    if PACKET_BITS_COUNT ≠ PACKET_BITS then (start_address + PACKET_BITS_HEADER) % 256
    else start_address
  build_address_loop packet_bits start_address 257 start_address 0x1

/-- Loop of `build_data`:
`for (i = start_address; i < start_address + 9; i++) ret = (ret << 1) ^ level;`
with `i` of type `uint8_t` and `ret` of type `uint16_t`. -/
def build_data_loop (packet_bits : List Nat) (start_address : Nat) :
    Nat → Nat → Nat → Option Nat
  | 0, _, _ => none
  | fuel + 1, i, ret =>
    if i < start_address + 9 then
      match packet_bits[i]? with
      | none => none
      | some sample =>
        build_data_loop packet_bits start_address fuel ((i + 1) % 256)
          (((ret <<< 1) ^^^ line_level sample) % 65536)
    else some ret

/-- Function `uint16_t build_data(uint8_t start_address)`. -/
def build_data (packet_bits : List Nat) (start_address : Nat) : Option Nat :=
  let start_address :=
    if PACKET_BITS_COUNT ≠ PACKET_BITS then (start_address + PACKET_BITS_HEADER) % 256
    else start_address
  build_data_loop packet_bits start_address 257 start_address 0

/-- Function `int get_digit_from_data(uint16_t data)`: the `switch` over the segment pattern. -/
def get_digit_from_data (data : Nat) : Int :=
  let segments := (data &&& 0xFE) >>> 1
  if segments = 0x7D then 0
  else if segments = 0x05 then 1
  else if segments = 0x6B then 2
  else if segments = 0x4F then 3
  else if segments = 0x17 then 4
  else if segments = 0x5E then 5
  else if segments = 0x7E then 6
  else if segments = 0x0D then 7
  else if segments = 0x7F then 8
  else if segments = 0x5F then 9
  else -1

/-- Function `uint8_t spindle_stopped(uint16_t data)`: returns 1 if stopped, 0 otherwise. -/
def spindle_stopped (data : Nat) : Nat :=
  (data &&& 0x1) % 256

/-- Reduction of an integer to the 16-bit two's complement `int` of the target. -/
def int16 (x : Int) : Int :=
  (x + 32768) % 65536 - 32768

/-- Function `int get_rpm()`: reads the global `packet_bits`; returns the spindle speed,
or -1 if the values are absurd. -/
def get_rpm (packet_bits : List Nat) : Option Int :=
  let ret : Int := 0
  match build_address packet_bits 0 with
  | none => none
  | some a0 =>
  if a0 ≠ 0xA0 then some (-1) else
  match build_data packet_bits 8 with
  | none => none
  | some d0 =>
  let temp := get_digit_from_data d0
  if temp = -1 then some (-1) else
  let ret := int16 (ret + int16 (temp * 1000))
  match build_address packet_bits 17 with
  | none => none
  | some a1 =>
  if a1 ≠ 0xA1 then some (-1) else
  match build_data packet_bits 25 with
  | none => none
  | some d1 =>
  let temp := get_digit_from_data d1
  if temp = -1 then some (-1) else
  let ret := int16 (ret + int16 (temp * 100))
  match build_address packet_bits 34 with
  | none => none
  | some a2 =>
  if a2 ≠ 0xA2 then some (-1) else
  match build_data packet_bits 42 with
  | none => none
  | some d2 =>
  let temp := get_digit_from_data d2
  if temp = -1 then some (-1) else
  let ret := int16 (ret + int16 (temp * 10))
  match build_address packet_bits 51 with
  | none => none
  | some a3 =>
  if a3 ≠ 0xA3 then some (-1) else
  match build_data packet_bits 59 with
  | none => none
  | some d3 =>
  let temp := int16 (d3 : Int)
  if temp ≠ 0x20 then some (-1) else
  some ret

/-! ## A sample capture -/

/-- Samples of a 17-bit frame from its line levels: `0x10` for high, `0` for low. -/
def frame_samples (levels : List Nat) : List Nat :=
  levels.map (fun b => if b = 1 then 0x10 else 0)

/-- A capture of one packet reading 1230 rpm: 36 header samples, then the frames
`A0:0 0000101 0`, `A1:0 1101011 0`, `A2:0 1001111 0`, `A3:000100000`. -/
def sample_capture : List Nat :=
  List.replicate 36 0x10 ++
  frame_samples [1,0,1,0,0,0,0,0, 0, 0,0,0,0,1,0,1, 0] ++
  frame_samples [1,0,1,0,0,0,0,1, 0, 1,1,0,1,0,1,1, 0] ++
  frame_samples [1,0,1,0,0,0,1,0, 0, 1,0,0,1,1,1,1, 0] ++
  frame_samples [1,0,1,0,0,0,1,1, 0,0,0,1,0,0,0,0,0]

/-! ## Reference definitions

The `spec_` definitions follow the words of the specification, not the code;
the theorems below compare the code with them. -/

/-- Line level of a raw sample: 1 exactly when bit 4 (`0x10`) of the sample is set. -/
def spec_level (sample : Nat) : Nat :=
  if sample.testBit 4 then 1 else 0

/-- The line levels of the `width` samples at indices `start .. start + width - 1`, in order. -/
def spec_levels (packet_bits : List Nat) (start width : Nat) : List Nat :=
  (List.range width).map (fun k => spec_level (packet_bits.getD (start + k) 0))

/-- The seeded shift-XOR fold: start with `seed`, and for each bit in order
`new_value = (old_value shifted left by 1) XOR bit`; no truncation. -/
def spec_fold (seed : Nat) (bits : List Nat) : Nat :=
  bits.foldl (fun value bit => (value <<< 1) ^^^ bit) seed

/-- The same fold carried out in an accumulator of `width` bits: every new value is cut
to `width` bits. -/
def spec_fold_width (width seed : Nat) (bits : List Nat) : Nat :=
  bits.foldl (fun value bit => ((value <<< 1) ^^^ bit) % 2 ^ width) seed

/-- The MSB-first binary number formed by a list of bits: the sum of
`bit_k * 2 ^ (n - 1 - k)` over a list of length `n`. -/
def spec_msb_first : List Nat → Nat
  | [] => 0
  | b :: bs => b * 2 ^ bs.length + spec_msb_first bs

/-- The segment pattern of a data value: bits 1-7, `(data >> 1) & 0x7F`. -/
def spec_pattern (data : Nat) : Nat :=
  (data >>> 1) &&& 0x7F

/-- The fixed table from segment pattern to numeral. -/
def spec_digit_table : List (Nat × Int) :=
  [(0x7D, 0), (0x05, 1), (0x6B, 2), (0x4F, 3), (0x17, 4),
   (0x5E, 5), (0x7E, 6), (0x0D, 7), (0x7F, 8), (0x5F, 9)]

/-- The patterns of the table. -/
def spec_patterns : List Nat :=
  spec_digit_table.map Prod.fst

/-- The value carried by the `width`-bit field at nominal offset `offset`: the
MSB-first number of its line levels, read at the header-corrected indices. -/
def spec_field (packet_bits : List Nat) (offset width : Nat) : Nat :=
  spec_msb_first (spec_levels packet_bits (offset + PACKET_BITS_HEADER) width)

/-! ## Further sample captures -/

/-- The sample capture with the last address bit of frame 2 raised (`0xA2` becomes `0xA3`). -/
def capture_bad_address : List Nat :=
  sample_capture.set (34 + 36 + 7) 0x10

/-- The sample capture with a segment bit of frame 1 dropped (`1101011` becomes `0101011`). -/
def capture_bad_digit : List Nat :=
  sample_capture.set (25 + 36 + 1) 0

/-- The sample capture with the last data bit of frame 3 raised (`0x20` becomes `0x21`). -/
def capture_bad_sentinel : List Nat :=
  sample_capture.set (59 + 36 + 8) 0x10

/-- The sample capture with the eight address samples of frame 0 in reverse order. -/
def capture_reversed_address : List Nat :=
  List.replicate 36 0x10 ++
  frame_samples [0,0,0,0,0,1,0,1, 0, 0,0,0,0,1,0,1, 0] ++
  frame_samples [1,0,1,0,0,0,0,1, 0, 1,1,0,1,0,1,1, 0] ++
  frame_samples [1,0,1,0,0,0,1,0, 0, 1,0,0,1,1,1,1, 0] ++
  frame_samples [1,0,1,0,0,0,1,1, 0,0,0,1,0,0,0,0,0]

/-- A capture of a stopped spindle: digits 0, 0, 0 and the stopped flag of frame 2 raised. -/
def capture_stopped : List Nat :=
  List.replicate 36 0x10 ++
  frame_samples [1,0,1,0,0,0,0,0, 0, 1,1,1,1,1,0,1, 0] ++
  frame_samples [1,0,1,0,0,0,0,1, 0, 1,1,1,1,1,0,1, 0] ++
  frame_samples [1,0,1,0,0,0,1,0, 0, 1,1,1,1,1,0,1, 1] ++
  frame_samples [1,0,1,0,0,0,1,1, 0,0,0,1,0,0,0,0,0]

/-- The buffer with the line level (bit 4) of the sample at index `i` flipped. -/
def flip_level (packet_bits : List Nat) (i : Nat) : List Nat :=
  packet_bits.set i (packet_bits.getD i 0 ^^^ 0x10)

/-! ## The display collaborator and the decode step of `loop` -/

/-- One call on the display object `lcd`. -/
inductive LcdCall where
  | clearDisplay
  | setCursor (x y : Nat)
  | setTextSize (size : Nat)
  | print_text (text : String)
  | print_int (value : Int)
  | display
  deriving DecidableEq

/-- The part of `loop` from `if (packet_bits_pos == PACKET_BITS_COUNT && count < MAXCOUNT)`
to the end of its empty `else`: the calls made on `lcd`, in order. -/
def loop_decode (packet_bits : List Nat) (packet_bits_pos count : Nat) :
    Option (List LcdCall) :=
  if packet_bits_pos = PACKET_BITS_COUNT ∧ count < MAXCOUNT then
    match get_rpm packet_bits with
    | none => none
    | some rpm =>
      if rpm = -1 then
        some [.clearDisplay, .setCursor 0 20,
          .setTextSize 2, .print_text "err2", .display]
      else if rpm = 0 then
        some [.clearDisplay, .setCursor 0 20,
          .setTextSize 2, .print_text "Stopped", .display]
      else
        some [.clearDisplay, .setCursor 0 20,
          .setTextSize 4, .print_int rpm, .setTextSize 1, .setCursor 95 55,
          .print_text "RPM", .display]
  else
    some []

/-- The payload of a sequence of display calls: what it prints, in order. -/
def spec_payload (calls : List LcdCall) : List LcdCall :=
  calls.filter (fun c =>
    match c with
    | .print_text _ => true
    | .print_int _ => true
    | _ => false)

/-! ## The capture cycle of `loop` -/

/-- Condition of the capture wait of `loop`:
`packet_bits_pos < PACKET_BITS_COUNT && count < MAXCOUNT`. -/
def capture_cond (packet_bits_pos count : Nat) : Bool :=
  decide (packet_bits_pos < PACKET_BITS_COUNT) && decide (count < MAXCOUNT)

/-- The capture wait of `loop`:
`for (count = 0; packet_bits_pos < PACKET_BITS_COUNT && count < MAXCOUNT; count++)`.
The cursor is volatile: `observed k` is the value the main line finds at its `k`-th read
of `packet_bits_pos` after the interrupt was enabled (`k` from 0); the condition reads
it once per evaluation, so the read at the evaluation with counter `count` is
`observed count`. The result is the final value of `count` (`unsigned long`). -/
def capture_wait (observed : Nat → Nat) : Nat → Nat → Option Nat
  | 0, _ => none
  | fuel + 1, count =>
    if capture_cond (observed count) count then
      capture_wait observed fuel ((count + 1) % 4294967296)
    else some count

/-- The decode step of `loop` after a wait that ended with `count`: the read of the
cursor in the `if` is the read after the last one of the wait. The result is `count`
and the calls made on `lcd`. -/
def loop_check (packet_bits : List Nat) (observed : Nat → Nat) (count : Nat) :
    Option (Nat × List LcdCall) :=
  match loop_decode packet_bits (observed (count + 1)) count with
  | none => none
  | some calls => some (count, calls)

/-- The capture wait followed by the decode step of `loop`: the final `count` and the
calls made on `lcd`. -/
def loop_capture (packet_bits : List Nat) (observed : Nat → Nat) :
    Option (Nat × List LcdCall) :=
  (capture_wait observed (MAXCOUNT + 1) 0).bind (loop_check packet_bits observed)

/-- The clearing loop at the end of `loop`:
`for (packet_bits_pos = 0; packet_bits_pos < PACKET_BITS_COUNT; packet_bits_pos++)`
`packet_bits[packet_bits_pos] = 0;` from the cursor value `packet_bits_pos` on. The
result is the buffer and the cursor after the loop. -/
def clear_loop (packet_bits : List Nat) : Nat → Nat → Option (List Nat × Nat)
  | 0, _ => none
  | fuel + 1, packet_bits_pos =>
    if packet_bits_pos < PACKET_BITS_COUNT then
      if packet_bits_pos < packet_bits.length then
        clear_loop (packet_bits.set packet_bits_pos 0) fuel ((packet_bits_pos + 1) % 256)
      else none
    else some (packet_bits, packet_bits_pos)

/-- Program points of the main line: the rest of `setup` after `EIMSK |= (1<<INT1)`, and
the statements of `loop`. -/
inductive Pc where
  | setup_tail
  | cycle_start
  | await_bus
  | settle
  | enable
  | capture_init
  | capture
  | disable
  | decode
  | clear
  deriving DecidableEq

/-- The state of the program: the program point, the globals `packet_bits` and
`packet_bits_pos`, the local `count`, the INT1 bit of `EIMSK`, the calls made on `lcd`
by `loop`, and whether a store outside `packet_bits` has happened (undefined behaviour,
after which the state is frozen). `edges` and `cycles` are history variables that do not
exist in the source: the number of sampler runs since the cursor was last reset by
`packet_bits_pos = 0` at the start of `loop`, and the number of completed passes of
`loop`. -/
structure Machine where
  pc : Pc
  packet_bits : List Nat
  packet_bits_pos : Nat
  count : Nat
  int1 : Bool
  lcd : List LcdCall
  fault : Bool
  edges : Nat
  cycles : Nat

/-- What happens next: a falling edge on the clock line, with the value of `PIND` at
that moment, or the next statement of the main line, with the level that
`digitalRead(LCDCS)` would find (`true` for `LOW`). -/
inductive Event where
  | edge (pind : Nat)
  | main (lcdcs_low : Bool)

/-- The handler `SIGNAL(INT1_vect)`: `packet_bits[packet_bits_pos] = PIND;`
`packet_bits_pos++;`. -/
def INT1_vect (pind : Nat) (m : Machine) : Machine :=
  if m.packet_bits_pos < m.packet_bits.length then
    { m with
      packet_bits := m.packet_bits.set m.packet_bits_pos (pind % 256)
      packet_bits_pos := (m.packet_bits_pos + 1) % 256
      edges := m.edges + 1 }
  else
    { m with
      packet_bits_pos := (m.packet_bits_pos + 1) % 256
      edges := m.edges + 1
      fault := true }

/-- One statement of the main line. The decode step and the clearing loop run with the
interrupt disabled and are taken as one step each. -/
def main_step (lcdcs_low : Bool) (m : Machine) : Machine :=
  match m.pc with
  | .setup_tail => { m with pc := .cycle_start }
  | .cycle_start => { m with packet_bits_pos := 0, edges := 0, pc := .await_bus }
  | .await_bus => if lcdcs_low then m else { m with pc := .settle }
  | .settle => { m with pc := .enable }
  | .enable => { m with int1 := true, pc := .capture_init }
  | .capture_init => { m with count := 0, pc := .capture }
  | .capture =>
    if capture_cond m.packet_bits_pos m.count then
      { m with count := (m.count + 1) % 4294967296 }
    else { m with pc := .disable }
  | .disable => { m with int1 := false, pc := .decode }
  | .decode =>
    match loop_decode m.packet_bits m.packet_bits_pos m.count with
    | none => { m with fault := true }
    | some calls => { m with lcd := m.lcd ++ calls, pc := .clear }
  | .clear =>
    match clear_loop m.packet_bits 257 0 with
    | none => { m with fault := true }
    | some (bits, pos) =>
      { m with packet_bits := bits, packet_bits_pos := pos, cycles := m.cycles + 1,
               pc := .cycle_start }

/-- One event. The sampler runs only while INT1 is set in `EIMSK`; an edge that arrives
while it is clear is not sampled. -/
def step (e : Event) (m : Machine) : Machine :=
  if m.fault then m
  else
    match e with
    | .edge pind => if m.int1 then INT1_vect pind m else m
    | .main lcdcs_low => main_step lcdcs_low m

/-- The state after a sequence of events. -/
def run (events : List Event) (m : Machine) : Machine :=
  events.foldl (fun state e => step e state) m

/-- The state right after `EIMSK |= (1<<INT1)` in `setup`: the globals still zero, the
interrupt enabled. -/
def after_setup_enable : Machine :=
  { pc := .setup_tail
    packet_bits := List.replicate PACKET_BITS_COUNT 0
    packet_bits_pos := 0
    count := 0
    int1 := true
    lcd := []
    fault := false
    edges := 0
    cycles := 0 }

/-- The events of one pass of `loop` that captures `samples`: the statements up to the
capture wait, one edge per sample, then the statements to the end of the pass. -/
def capture_events (samples : List Nat) : List Event :=
  [.main false, .main false, .main false, .main false, .main false] ++
  samples.map Event.edge ++
  [.main false, .main false, .main false, .main false]

/-- The program points outside the capture wait: waiting for the bus to go idle, the
settle delay, decoding, and clearing the buffer. -/
def outside_capture (pc : Pc) : Bool :=
  match pc with
  | .await_bus => true
  | .settle => true
  | .decode => true
  | .clear => true
  | _ => false

/-- The rest of `setup`, the statements of `loop` up to the capture wait, and then 105
clock edges. -/
def overrun_events : List Event :=
  List.replicate 6 (.main false) ++ List.replicate 105 (.edge 0x10)

/-- The rest of `setup`, the statements of `loop` up to the capture wait, and then the
104 clock edges of the sample capture. -/
def window_events : List Event :=
  List.replicate 6 (.main false) ++ sample_capture.map Event.edge

/-- The rest of `setup` and one pass of `loop` that captures the sample capture. -/
def first_pass_events : List Event :=
  .main false :: capture_events sample_capture

/-- A cursor that stays at 50: the bus went quiet after 50 bits. -/
def observed_stuck : Nat → Nat :=
  fun _ => 50

/-- A cursor that grows by one per read and stops at 104. -/
def observed_complete : Nat → Nat :=
  fun k => min k 104

/-- A cursor found at 103 by the first three reads of the wait, at 104 by the fourth,
and at 105 by the read after it: one more edge arrived before the interrupt was
disabled. -/
def observed_late_edge : Nat → Nat :=
  fun k => if k < 3 then 103 else 101 + k

/-- The eight reads of `get_rpm`: nominal offset and width of each field. -/
def get_rpm_fields : List (Nat × Nat) :=
  [(0, 8), (8, 9), (17, 8), (25, 9), (34, 8), (42, 9), (51, 8), (59, 9)]

/-- A capture that differs from the sample capture in its 36 header samples and in
every bit of every sample except bit 4. -/
def capture_noisy : List Nat :=
  List.replicate 36 0x00 ++ (sample_capture.drop 36).map (fun s => s ^^^ 0xEF)

/-- The invariant of the capture cycle: the buffer keeps its 104 entries, `count` stays
within the budget, a store outside the buffer happens only at the 105th edge since the
cursor reset, while the sampler can run the cursor is the number of edges since that
reset, and at each program point the interrupt is enabled or disabled as stated. -/
def Inv (m : Machine) : Prop :=
  m.packet_bits.length = 104 ∧ m.count ≤ MAXCOUNT ∧
  (m.fault = true → m.int1 = true ∧ m.packet_bits_pos = 105 ∧ m.edges = 105) ∧
  (m.fault = false → m.edges ≤ 104 ∧ (m.int1 = true → m.packet_bits_pos = m.edges)) ∧
  (match m.pc with
   | .setup_tail => m.int1 = true ∧ m.cycles = 0
   | .cycle_start =>
     (m.cycles = 0 ∧ m.int1 = true) ∨
     (1 ≤ m.cycles ∧ m.int1 = false ∧ m.packet_bits_pos = 104 ∧
       m.packet_bits = List.replicate 104 0)
   | .await_bus => (m.cycles = 0 ∧ m.int1 = true) ∨
     (1 ≤ m.cycles ∧ m.int1 = false ∧ m.packet_bits_pos = 0 ∧ m.edges = 0)
   | .settle => (m.cycles = 0 ∧ m.int1 = true) ∨
     (1 ≤ m.cycles ∧ m.int1 = false ∧ m.packet_bits_pos = 0 ∧ m.edges = 0)
   | .enable => (m.cycles = 0 ∧ m.int1 = true) ∨
     (1 ≤ m.cycles ∧ m.int1 = false ∧ m.packet_bits_pos = 0 ∧ m.edges = 0)
   | .capture_init => m.int1 = true
   | .capture => m.int1 = true
   | .disable => m.int1 = true
   | .decode => m.int1 = false ∧ m.packet_bits_pos ≤ 104 ∧ m.fault = false
   | .clear => m.int1 = false ∧ m.packet_bits_pos ≤ 104 ∧ m.fault = false)

/-- Past the first pass of `loop`, every buffer entry at or beyond the cursor is zero
between the cursor reset and the decode step. -/
def Fresh (m : Machine) : Prop :=
  1 ≤ m.cycles → m.fault = false → m.pc ≠ .cycle_start → m.pc ≠ .clear →
    ∀ i, m.packet_bits_pos ≤ i → m.packet_bits.getD i 0 = 0

/-! ## Bit-level lemmas -/

theorem shl_xor_bit (a b : Nat) (hb : b ≤ 1) : (a <<< 1) ^^^ b = 2 * a + b := by
  have hb2 : b < 2 ^ 1 := by omega
  rw [Nat.shiftLeft_eq, Nat.mul_comm a, Nat.mul_add_lt_is_or hb2 a]
  apply Nat.eq_of_testBit_eq
  intro i
  simp only [Nat.testBit_xor, Nat.testBit_or]
  rcases i with _ | i
  · simp [Nat.testBit_zero]
  · have hz : b.testBit (i + 1) = false := Nat.testBit_lt_two_pow (by
      calc b < 2 ^ 1 := hb2
        _ ≤ 2 ^ (i + 1) := Nat.pow_le_pow_right (by decide) (by omega))
    simp [hz]

theorem and_0x10_ne_zero_iff (s : Nat) : (s &&& 0x10 ≠ 0) ↔ s.testBit 4 = true := by
  have h : s &&& 0x10 = s &&& 2 ^ 4 := rfl
  rw [h, Nat.and_two_pow]
  cases s.testBit 4 <;> simp

theorem line_level_eq_spec_level (s : Nat) : line_level s = spec_level s := by
  unfold line_level spec_level
  by_cases h : s.testBit 4 = true
  · rw [if_pos ((and_0x10_ne_zero_iff s).2 h), if_pos h]
  · rw [if_neg (fun hc => h ((and_0x10_ne_zero_iff s).1 hc)), if_neg h]

theorem spec_level_le_one (s : Nat) : spec_level s ≤ 1 := by
  unfold spec_level
  split <;> omega

theorem segments_eq_spec_pattern (data : Nat) : (data &&& 0xFE) >>> 1 = spec_pattern data := by
  unfold spec_pattern
  apply Nat.eq_of_testBit_eq
  intro i
  simp only [Nat.testBit_shiftRight, Nat.testBit_and]
  congr 1
  have h1 : (0x7F : Nat) = 0xFE >>> 1 := by decide
  rw [h1, Nat.testBit_shiftRight]

theorem spec_pattern_eq_div_mod (data : Nat) : spec_pattern data = data / 2 % 128 := by
  unfold spec_pattern
  have h : (0x7F : Nat) = 2 ^ 7 - 1 := by decide
  rw [h, Nat.and_pow_two_sub_one_eq_mod, Nat.shiftRight_eq_div_pow]

/-! ## The reference fold -/

theorem spec_levels_succ (buf : List Nat) (start k : Nat) :
    spec_levels buf start (k + 1)
      = spec_levels buf start k ++ [spec_level (buf.getD (start + k) 0)] := by
  simp [spec_levels, List.range_succ]

theorem spec_levels_length (buf : List Nat) (start width : Nat) :
    (spec_levels buf start width).length = width := by
  simp [spec_levels]

theorem spec_levels_le_one (buf : List Nat) (start width : Nat) :
    ∀ b ∈ spec_levels buf start width, b ≤ 1 := by
  intro b hb
  simp only [spec_levels, List.mem_map] at hb
  obtain ⟨k, _, rfl⟩ := hb
  exact spec_level_le_one _

theorem spec_fold_snoc (seed : Nat) (bits : List Nat) (b : Nat) :
    spec_fold seed (bits ++ [b]) = (spec_fold seed bits <<< 1) ^^^ b := by
  simp [spec_fold, List.foldl_append]

theorem spec_fold_eq_msb_first (bits : List Nat) :
    ∀ seed : Nat, (∀ b ∈ bits, b ≤ 1) →
      spec_fold seed bits = seed * 2 ^ bits.length + spec_msb_first bits := by
  induction bits with
  | nil => intro seed _; simp [spec_fold, spec_msb_first]
  | cons b bs ih =>
    intro seed hb
    have hb1 : b ≤ 1 := hb b (List.mem_cons_self _ _)
    have hbs : ∀ c ∈ bs, c ≤ 1 := fun c hc => hb c (List.mem_cons_of_mem _ hc)
    have hstep : spec_fold seed (b :: bs) = spec_fold ((seed <<< 1) ^^^ b) bs := rfl
    rw [hstep, ih _ hbs, shl_xor_bit seed b hb1]
    simp only [spec_msb_first, List.length_cons]
    ring

theorem spec_msb_first_lt (bits : List Nat) :
    (∀ b ∈ bits, b ≤ 1) → spec_msb_first bits < 2 ^ bits.length := by
  induction bits with
  | nil => intro _; simp [spec_msb_first]
  | cons b bs ih =>
    intro hb
    have hb1 : b ≤ 1 := hb b (List.mem_cons_self _ _)
    have hbs := ih (fun c hc => hb c (List.mem_cons_of_mem _ hc))
    simp only [spec_msb_first, List.length_cons]
    have hmul : b * 2 ^ bs.length ≤ 1 * 2 ^ bs.length := Nat.mul_le_mul_right _ hb1
    rw [Nat.pow_succ]
    omega


theorem spec_fold_mod_seed (width : Nat) (bits : List Nat) (hb : ∀ b ∈ bits, b ≤ 1)
    (seed : Nat) :
    spec_fold (seed % 2 ^ width) bits % 2 ^ width = spec_fold seed bits % 2 ^ width := by
  rw [spec_fold_eq_msb_first bits _ hb, spec_fold_eq_msb_first bits _ hb]
  rw [Nat.add_mod, Nat.mul_mod, Nat.mod_mod, ← Nat.mul_mod, ← Nat.add_mod]

theorem spec_fold_width_eq (width : Nat) (bits : List Nat) :
    ∀ seed : Nat, (∀ b ∈ bits, b ≤ 1) → seed < 2 ^ width →
      spec_fold_width width seed bits = spec_fold seed bits % 2 ^ width := by
  induction bits with
  | nil =>
    intro seed _ hs
    simp [spec_fold_width, spec_fold, Nat.mod_eq_of_lt hs]
  | cons b bs ih =>
    intro seed hb _
    have hbs : ∀ c ∈ bs, c ≤ 1 := fun c hc => hb c (List.mem_cons_of_mem _ hc)
    have hl : spec_fold_width width seed (b :: bs)
        = spec_fold_width width (((seed <<< 1) ^^^ b) % 2 ^ width) bs := rfl
    have hr : spec_fold seed (b :: bs) = spec_fold ((seed <<< 1) ^^^ b) bs := rfl
    rw [hl, hr, ih _ hbs (Nat.mod_lt _ (Nat.two_pow_pos width)), spec_fold_mod_seed width bs hbs]

/-! ## The loops of `build_address` and `build_data` compute the reference fold -/

theorem getElem?_eq_some_getD (buf : List Nat) (i : Nat) (h : i < buf.length) :
    buf[i]? = some (buf.getD i 0) := by
  simp [List.getD_eq_getElem?_getD, List.getElem?_eq_getElem h]

theorem build_address_loop_spec (buf : List Nat) (start : Nat)
    (hlen : start + 8 ≤ buf.length) (hwrap : start + 8 < 256) :
    ∀ (n k fuel : Nat), k + n = 8 → n < fuel →
      build_address_loop buf start fuel (start + k)
          (spec_fold 1 (spec_levels buf start k) % 256)
        = some (spec_fold 1 (spec_levels buf start 8) % 256) := by
  intro n
  induction n with
  | zero =>
    intro k fuel hk hf
    obtain ⟨f, rfl⟩ : ∃ f, fuel = f + 1 := ⟨fuel - 1, by omega⟩
    have hk8 : k = 8 := by omega
    subst hk8
    simp [build_address_loop]
  | succ n ih =>
    intro k fuel hk hf
    obtain ⟨f, rfl⟩ : ∃ f, fuel = f + 1 := ⟨fuel - 1, by omega⟩
    have hi : start + k < start + 8 := by omega
    have hget := getElem?_eq_some_getD buf (start + k) (by omega)
    have hnext : (start + k + 1) % 256 = start + (k + 1) := by omega
    have hret : (((spec_fold 1 (spec_levels buf start k) % 256) <<< 1)
          ^^^ line_level (buf.getD (start + k) 0)) % 256
        = spec_fold 1 (spec_levels buf start (k + 1)) % 256 := by
      rw [spec_levels_succ, spec_fold_snoc, line_level_eq_spec_level,
        shl_xor_bit _ _ (spec_level_le_one _), shl_xor_bit _ _ (spec_level_le_one _)]
      omega
    rw [build_address_loop, if_pos hi, hget]
    simp only
    rw [hnext, hret]
    exact ih (k + 1) f (by omega) (by omega)

theorem build_data_loop_spec (buf : List Nat) (start : Nat)
    (hlen : start + 9 ≤ buf.length) (hwrap : start + 9 < 256) :
    ∀ (n k fuel : Nat), k + n = 9 → n < fuel →
      build_data_loop buf start fuel (start + k)
          (spec_fold 0 (spec_levels buf start k) % 65536)
        = some (spec_fold 0 (spec_levels buf start 9) % 65536) := by
  intro n
  induction n with
  | zero =>
    intro k fuel hk hf
    obtain ⟨f, rfl⟩ : ∃ f, fuel = f + 1 := ⟨fuel - 1, by omega⟩
    have hk9 : k = 9 := by omega
    subst hk9
    simp [build_data_loop]
  | succ n ih =>
    intro k fuel hk hf
    obtain ⟨f, rfl⟩ : ∃ f, fuel = f + 1 := ⟨fuel - 1, by omega⟩
    have hi : start + k < start + 9 := by omega
    have hget := getElem?_eq_some_getD buf (start + k) (by omega)
    have hnext : (start + k + 1) % 256 = start + (k + 1) := by omega
    have hret : (((spec_fold 0 (spec_levels buf start k) % 65536) <<< 1)
          ^^^ line_level (buf.getD (start + k) 0)) % 65536
        = spec_fold 0 (spec_levels buf start (k + 1)) % 65536 := by
      rw [spec_levels_succ, spec_fold_snoc, line_level_eq_spec_level,
        shl_xor_bit _ _ (spec_level_le_one _), shl_xor_bit _ _ (spec_level_le_one _)]
      omega
    rw [build_data_loop, if_pos hi, hget]
    simp only
    rw [hnext, hret]
    exact ih (k + 1) f (by omega) (by omega)

/-- Function `build_address` on an in-range offset: the seed-1 fold of the eight levels, cut to 8 bits. -/
theorem build_address_eq_fold (buf : List Nat) (offset : Nat)
    (hlen : buf.length = PACKET_BITS_COUNT)
    (hoff : offset + PACKET_BITS_HEADER + 8 ≤ PACKET_BITS_COUNT) :
    build_address buf offset
      = some (spec_fold 1 (spec_levels buf (offset + PACKET_BITS_HEADER) 8) % 256) := by
  have hc : PACKET_BITS_COUNT = 104 := rfl
  have hh : PACKET_BITS_HEADER = 36 := rfl
  rw [hc] at hlen hoff
  rw [hh] at hoff ⊢
  have hne : PACKET_BITS_COUNT ≠ PACKET_BITS := by decide
  have hstart : (offset + 36) % 256 = offset + 36 := by omega
  have h := build_address_loop_spec buf (offset + 36) (by omega) (by omega) 8 0 257
    (by omega) (by omega)
  simp only [build_address, if_pos hne, hh, hstart]
  simpa [spec_levels, spec_fold] using h

/-- Function `build_data` on an in-range offset: the seed-0 fold of the nine levels. -/
theorem build_data_eq_fold (buf : List Nat) (offset : Nat)
    (hlen : buf.length = PACKET_BITS_COUNT)
    (hoff : offset + PACKET_BITS_HEADER + 9 ≤ PACKET_BITS_COUNT) :
    build_data buf offset
      = some (spec_fold 0 (spec_levels buf (offset + PACKET_BITS_HEADER) 9)) := by
  have hc : PACKET_BITS_COUNT = 104 := rfl
  have hh : PACKET_BITS_HEADER = 36 := rfl
  rw [hc] at hlen hoff
  rw [hh] at hoff ⊢
  have hne : PACKET_BITS_COUNT ≠ PACKET_BITS := by decide
  have hstart : (offset + 36) % 256 = offset + 36 := by omega
  have h := build_data_loop_spec buf (offset + 36) (by omega) (by omega) 9 0 257
    (by omega) (by omega)
  have hbits := spec_levels_le_one buf (offset + 36) 9
  have hlt := spec_msb_first_lt _ hbits
  have hval := spec_fold_eq_msb_first _ 0 hbits
  rw [spec_levels_length] at hlt
  have hsmall : spec_fold 0 (spec_levels buf (offset + 36) 9) % 65536
      = spec_fold 0 (spec_levels buf (offset + 36) 9) := by
    apply Nat.mod_eq_of_lt
    rw [hval]
    norm_num at hlt ⊢
    omega
  rw [hsmall] at h
  simp only [build_data, if_pos hne, hh, hstart]
  simpa [spec_levels, spec_fold] using h

/-- The seed of `build_address` is shifted out: the result is the MSB-first number. -/
theorem build_address_eq_msb_first (buf : List Nat) (offset : Nat)
    (hlen : buf.length = PACKET_BITS_COUNT)
    (hoff : offset + PACKET_BITS_HEADER + 8 ≤ PACKET_BITS_COUNT) :
    build_address buf offset
      = some (spec_msb_first (spec_levels buf (offset + PACKET_BITS_HEADER) 8)) := by
  rw [build_address_eq_fold buf offset hlen hoff]
  have hbits := spec_levels_le_one buf (offset + PACKET_BITS_HEADER) 8
  have hlt := spec_msb_first_lt _ hbits
  rw [spec_fold_eq_msb_first _ 1 hbits]
  rw [spec_levels_length] at hlt ⊢
  norm_num at hlt ⊢
  omega

theorem build_data_eq_msb_first (buf : List Nat) (offset : Nat)
    (hlen : buf.length = PACKET_BITS_COUNT)
    (hoff : offset + PACKET_BITS_HEADER + 9 ≤ PACKET_BITS_COUNT) :
    build_data buf offset
      = some (spec_msb_first (spec_levels buf (offset + PACKET_BITS_HEADER) 9)) := by
  rw [build_data_eq_fold buf offset hlen hoff]
  have hbits := spec_levels_le_one buf (offset + PACKET_BITS_HEADER) 9
  rw [spec_fold_eq_msb_first _ 0 hbits]
  simp

/-! ## The digit mapper -/

theorem get_digit_from_data_congr (a b : Nat) (h : spec_pattern a = spec_pattern b) :
    get_digit_from_data a = get_digit_from_data b := by
  unfold get_digit_from_data
  simp only [segments_eq_spec_pattern, h]

theorem get_digit_from_data_mem (data : Nat) (d : Int)
    (h : (spec_pattern data, d) ∈ spec_digit_table) : get_digit_from_data data = d := by
  unfold get_digit_from_data
  simp only [segments_eq_spec_pattern]
  simp only [spec_digit_table, List.mem_cons, Prod.mk.injEq, List.mem_singleton,
    List.not_mem_nil, or_false] at h
  rcases h with h | h | h | h | h | h | h | h | h | h <;>
    · obtain ⟨hp, hd⟩ := h
      rw [hp, hd]
      decide

theorem get_digit_from_data_not_mem (data : Nat)
    (h : spec_pattern data ∉ spec_patterns) : get_digit_from_data data = -1 := by
  unfold get_digit_from_data
  simp only [segments_eq_spec_pattern]
  simp only [spec_patterns, spec_digit_table, List.map_cons, List.map_nil, List.mem_cons,
    List.mem_singleton, List.not_mem_nil, or_false, not_or] at h
  obtain ⟨h0, h1, h2, h3, h4, h5, h6, h7, h8, h9⟩ := h
  simp only [h0, h1, h2, h3, h4, h5, h6, h7, h8, h9, if_false]

theorem get_digit_from_data_range (data : Nat) :
    get_digit_from_data data = -1 ∨
      (0 ≤ get_digit_from_data data ∧ get_digit_from_data data ≤ 9) := by
  unfold get_digit_from_data
  simp only
  generalize (data &&& 0xFE) >>> 1 = segments
  split_ifs <;> omega

theorem int16_eq_self (x : Int) (hlo : -32768 ≤ x) (hhi : x < 32768) : int16 x = x := by
  unfold int16
  omega

/-! ## The resolver -/

/-- On a full buffer every read of `get_rpm` succeeds, and the eight decoded
fields are the reference field values. -/
theorem fields_decode (buf : List Nat) (hlen : buf.length = PACKET_BITS_COUNT) :
    build_address buf 0 = some (spec_field buf 0 8) ∧
    build_data buf 8 = some (spec_field buf 8 9) ∧
    build_address buf 17 = some (spec_field buf 17 8) ∧
    build_data buf 25 = some (spec_field buf 25 9) ∧
    build_address buf 34 = some (spec_field buf 34 8) ∧
    build_data buf 42 = some (spec_field buf 42 9) ∧
    build_address buf 51 = some (spec_field buf 51 8) ∧
    build_data buf 59 = some (spec_field buf 59 9) :=
  ⟨build_address_eq_msb_first buf 0 hlen (by decide),
   build_data_eq_msb_first buf 8 hlen (by decide),
   build_address_eq_msb_first buf 17 hlen (by decide),
   build_data_eq_msb_first buf 25 hlen (by decide),
   build_address_eq_msb_first buf 34 hlen (by decide),
   build_data_eq_msb_first buf 42 hlen (by decide),
   build_address_eq_msb_first buf 51 hlen (by decide),
   build_data_eq_msb_first buf 59 hlen (by decide)⟩

theorem spec_field_lt (buf : List Nat) (offset width : Nat) :
    spec_field buf offset width < 2 ^ width := by
  have h := spec_msb_first_lt _ (spec_levels_le_one buf (offset + PACKET_BITS_HEADER) width)
  rwa [spec_levels_length] at h

/-- A capture with valid addresses, table patterns and sentinel resolves to the weighted sum. -/
theorem get_rpm_of_valid_fields (packet_bits : List Nat) (d1 d2 d3 : Nat)
    (hlen : packet_bits.length = PACKET_BITS_COUNT)
    (hd1 : d1 ≤ 9) (hd2 : d2 ≤ 9) (hd3 : d3 ≤ 9)
    (ha0 : spec_field packet_bits 0 8 = 0xA0)
    (ha1 : spec_field packet_bits 17 8 = 0xA1)
    (ha2 : spec_field packet_bits 34 8 = 0xA2)
    (ha3 : spec_field packet_bits 51 8 = 0xA3)
    (hp1 : (spec_pattern (spec_field packet_bits 8 9), (d1 : Int)) ∈ spec_digit_table)
    (hp2 : (spec_pattern (spec_field packet_bits 25 9), (d2 : Int)) ∈ spec_digit_table)
    (hp3 : (spec_pattern (spec_field packet_bits 42 9), (d3 : Int)) ∈ spec_digit_table)
    (hs : spec_field packet_bits 59 9 = 0x20) :
    get_rpm packet_bits = some ((d1 : Int) * 1000 + (d2 : Int) * 100 + (d3 : Int) * 10) := by
  obtain ⟨e0, e1, e2, e3, e4, e5, e6, e7⟩ := fields_decode packet_bits hlen
  have g1 := get_digit_from_data_mem _ _ hp1
  have g2 := get_digit_from_data_mem _ _ hp2
  have g3 := get_digit_from_data_mem _ _ hp3
  have n1 : ¬ ((d1 : Int) = -1) := by omega
  have n2 : ¬ ((d2 : Int) = -1) := by omega
  have n3 : ¬ ((d3 : Int) = -1) := by omega
  have i1 : int16 (0 + int16 ((d1 : Int) * 1000)) = (d1 : Int) * 1000 := by
    unfold int16
    omega
  have i2 : int16 ((d1 : Int) * 1000 + int16 ((d2 : Int) * 100))
      = (d1 : Int) * 1000 + (d2 : Int) * 100 := by
    unfold int16
    omega
  have i3 : int16 ((d1 : Int) * 1000 + (d2 : Int) * 100 + int16 ((d3 : Int) * 10))
      = (d1 : Int) * 1000 + (d2 : Int) * 100 + (d3 : Int) * 10 := by
    unfold int16
    omega
  have i4 : int16 ((0x20 : Nat) : Int) = 0x20 := by decide
  simp only [get_rpm, e0, e1, e2, e3, e4, e5, e6, e7, ha0, ha1, ha2, ha3, hs, g1, g2, g3,
    n1, n2, n3, i1, i2, i3, i4, ne_eq, not_true_eq_false, if_false]


/-- C1: for every 104-sample capture whose address fields at nominal offsets 0, 17, 34, 51
carry 0xA0, 0xA1, 0xA2, 0xA3, whose data fields at 8, 25, 42 carry values whose bits 1-7
are the table patterns of digits d1, d2, d3 in 0..9, and whose data field at 59 carries
0x20, `get_rpm` returns exactly d1*1000 + d2*100 + d3*10. -/
theorem get_rpm_valid_packet (packet_bits : List Nat) (d1 d2 d3 : Nat)
    (hlen : packet_bits.length = PACKET_BITS_COUNT)
    (hd1 : d1 ≤ 9) (hd2 : d2 ≤ 9) (hd3 : d3 ≤ 9)
    (ha0 : spec_field packet_bits 0 8 = 0xA0)
    (ha1 : spec_field packet_bits 17 8 = 0xA1)
    (ha2 : spec_field packet_bits 34 8 = 0xA2)
    (ha3 : spec_field packet_bits 51 8 = 0xA3)
    (hp1 : (spec_pattern (spec_field packet_bits 8 9), (d1 : Int)) ∈ spec_digit_table)
    (hp2 : (spec_pattern (spec_field packet_bits 25 9), (d2 : Int)) ∈ spec_digit_table)
    (hp3 : (spec_pattern (spec_field packet_bits 42 9), (d3 : Int)) ∈ spec_digit_table)
    (hs : spec_field packet_bits 59 9 = 0x20) :
    get_rpm packet_bits = some ((d1 : Int) * 1000 + (d2 : Int) * 100 + (d3 : Int) * 10) :=
  get_rpm_of_valid_fields packet_bits d1 d2 d3 hlen hd1 hd2 hd3 ha0 ha1 ha2 ha3 hp1 hp2 hp3 hs

theorem get_rpm_valid_packet_witness :
    get_rpm sample_capture = some (((1 : Nat) : Int) * 1000 + ((2 : Nat) : Int) * 100
      + ((3 : Nat) : Int) * 10) :=
  get_rpm_valid_packet sample_capture 1 2 3 (by decide) (by decide) (by decide) (by decide)
    (by decide) (by decide) (by decide) (by decide) (by decide) (by decide) (by decide)
    (by decide)

/-- C2: for every 104-sample buffer in which at least one of the four address fields
(nominal offsets 0, 17, 34, 51) decodes to a value other than 0xA0, 0xA1, 0xA2, 0xA3
respectively, `get_rpm` returns -1, whatever the other fields hold. -/
theorem get_rpm_address_mismatch (packet_bits : List Nat)
    (hlen : packet_bits.length = PACKET_BITS_COUNT)
    (h : build_address packet_bits 0 ≠ some 0xA0 ∨ build_address packet_bits 17 ≠ some 0xA1 ∨
      build_address packet_bits 34 ≠ some 0xA2 ∨ build_address packet_bits 51 ≠ some 0xA3) :
    get_rpm packet_bits = some (-1) := by
  obtain ⟨e0, e1, e2, e3, e4, e5, e6, e7⟩ := fields_decode packet_bits hlen
  simp only [e0, e2, e4, e6, ne_eq, Option.some.injEq] at h
  simp only [get_rpm, e0, e1, e2, e3, e4, e5, e6, e7]
  split_ifs <;> first | rfl | omega

theorem get_rpm_address_mismatch_witness :
    capture_bad_address.length = PACKET_BITS_COUNT ∧
    build_address capture_bad_address 34 ≠ some 0xA2 ∧
    get_rpm capture_bad_address = some (-1) :=
  ⟨by decide, by decide,
    get_rpm_address_mismatch capture_bad_address (by decide)
      (Or.inr (Or.inr (Or.inl (by decide))))⟩

/-- C3: for every 104-sample buffer in which the data field of frame 0, 1 or 2 (nominal
offsets 8, 25, 42) has a segment pattern (bits 1-7 of the 9-bit value) that is not one
of the ten table patterns, `get_rpm` returns -1. -/
theorem get_rpm_invalid_digit (packet_bits : List Nat)
    (hlen : packet_bits.length = PACKET_BITS_COUNT)
    (h : spec_pattern (spec_field packet_bits 8 9) ∉ spec_patterns ∨
      spec_pattern (spec_field packet_bits 25 9) ∉ spec_patterns ∨
      spec_pattern (spec_field packet_bits 42 9) ∉ spec_patterns) :
    get_rpm packet_bits = some (-1) := by
  obtain ⟨e0, e1, e2, e3, e4, e5, e6, e7⟩ := fields_decode packet_bits hlen
  have g : get_digit_from_data (spec_field packet_bits 8 9) = -1 ∨
      get_digit_from_data (spec_field packet_bits 25 9) = -1 ∨
      get_digit_from_data (spec_field packet_bits 42 9) = -1 := by
    rcases h with h | h | h
    · exact Or.inl (get_digit_from_data_not_mem _ h)
    · exact Or.inr (Or.inl (get_digit_from_data_not_mem _ h))
    · exact Or.inr (Or.inr (get_digit_from_data_not_mem _ h))
  simp only [get_rpm, e0, e1, e2, e3, e4, e5, e6, e7]
  split_ifs <;> first | rfl | omega

theorem get_rpm_invalid_digit_witness :
    capture_bad_digit.length = PACKET_BITS_COUNT ∧
    spec_pattern (spec_field capture_bad_digit 25 9) ∉ spec_patterns ∧
    get_rpm capture_bad_digit = some (-1) :=
  ⟨by decide, by decide,
    get_rpm_invalid_digit capture_bad_digit (by decide) (Or.inr (Or.inl (by decide)))⟩

/-- C4: for every 104-sample buffer whose frame-3 data field (nominal offset 59, 9 bits)
decodes to any value other than exactly 0x20, `get_rpm` returns -1, also when all four
addresses and all three digit frames are valid. -/
theorem get_rpm_sentinel_mismatch (packet_bits : List Nat)
    (hlen : packet_bits.length = PACKET_BITS_COUNT)
    (h : build_data packet_bits 59 ≠ some 0x20) :
    get_rpm packet_bits = some (-1) := by
  obtain ⟨e0, e1, e2, e3, e4, e5, e6, e7⟩ := fields_decode packet_bits hlen
  simp only [e7, ne_eq, Option.some.injEq] at h
  have hlt := spec_field_lt packet_bits 59 9
  have hi : int16 ((spec_field packet_bits 59 9 : Nat) : Int) = (spec_field packet_bits 59 9 : Nat) :=
    int16_eq_self _ (by omega) (by norm_num at hlt; omega)
  have hne : ¬ (((spec_field packet_bits 59 9 : Nat) : Int) = 0x20) := by
    intro hc
    apply h
    exact_mod_cast hc
  simp only [get_rpm, e0, e1, e2, e3, e4, e5, e6, e7, hi]
  split_ifs <;> rfl

theorem get_rpm_sentinel_mismatch_witness :
    capture_bad_sentinel.length = PACKET_BITS_COUNT ∧
    build_address capture_bad_sentinel 0 = some 0xA0 ∧
    build_address capture_bad_sentinel 17 = some 0xA1 ∧
    build_address capture_bad_sentinel 34 = some 0xA2 ∧
    build_address capture_bad_sentinel 51 = some 0xA3 ∧
    build_data capture_bad_sentinel 59 ≠ some 0x20 ∧
    get_rpm capture_bad_sentinel = some (-1) :=
  ⟨by decide, by decide, by decide, by decide, by decide, by decide,
    get_rpm_sentinel_mismatch capture_bad_sentinel (by decide) (by decide)⟩

/-- C5: for every 104-sample buffer and every nominal offset with offset + 36 + 8 <= 104,
`build_address offset` is the 8-bit value of the fold of the 8 samples at corrected
indices offset+36 .. offset+43 in order, from seed 1, with
new_value = (old_value shifted left by 1) XOR bit, where bit is 1 exactly when bit 4 of
the raw sample is set: the fold cut to 8 bits, which is also the fold carried out in an
8-bit accumulator. The function has no store to the buffer: it is a function of the
buffer that yields only this value. -/
theorem build_address_seeded_fold (packet_bits : List Nat) (offset : Nat)
    (hlen : packet_bits.length = 104) (hoff : offset + 36 + 8 ≤ 104) :
    ∃ v : Nat, build_address packet_bits offset = some v ∧ v < 2 ^ 8 ∧
      v = spec_fold 1 (spec_levels packet_bits (offset + 36) 8) % 2 ^ 8 ∧
      v = spec_fold_width 8 1 (spec_levels packet_bits (offset + 36) 8) :=
  ⟨_, build_address_eq_fold packet_bits offset hlen hoff,
    Nat.mod_lt _ (Nat.two_pow_pos 8), rfl,
    (spec_fold_width_eq 8 _ 1 (spec_levels_le_one packet_bits (offset + 36) 8)
      (by decide)).symm⟩

theorem build_address_seeded_fold_witness :
    ∃ v : Nat, build_address sample_capture 17 = some v ∧ v < 2 ^ 8 ∧
      v = spec_fold 1 (spec_levels sample_capture (17 + 36) 8) % 2 ^ 8 ∧
      v = spec_fold_width 8 1 (spec_levels sample_capture (17 + 36) 8) :=
  build_address_seeded_fold sample_capture 17 (by decide) (by decide)

/-- C6: for every 104-sample buffer and every nominal offset with offset + 36 + 9 <= 104,
`build_data offset` is a 9-bit value (less than 512), equal to the seed-0 shift-XOR fold
of the 9 samples at corrected indices offset+36 .. offset+44, which is the MSB-first
binary number formed by their line levels. -/
theorem build_data_seeded_fold (packet_bits : List Nat) (offset : Nat)
    (hlen : packet_bits.length = 104) (hoff : offset + 36 + 9 ≤ 104) :
    ∃ v : Nat, build_data packet_bits offset = some v ∧ v < 512 ∧
      v = spec_fold 0 (spec_levels packet_bits (offset + 36) 9) ∧
      v = spec_msb_first (spec_levels packet_bits (offset + 36) 9) := by
  have hbits := spec_levels_le_one packet_bits (offset + 36) 9
  have hlt := spec_msb_first_lt _ hbits
  have hval := spec_fold_eq_msb_first _ 0 hbits
  rw [spec_levels_length] at hlt
  refine ⟨_, build_data_eq_fold packet_bits offset hlen hoff, ?_, rfl, ?_⟩
  · show spec_fold 0 (spec_levels packet_bits (offset + 36) 9) < 512
    rw [hval]
    norm_num at hlt ⊢
    exact hlt
  · show spec_fold 0 (spec_levels packet_bits (offset + 36) 9) = _
    rw [hval]
    simp

theorem build_data_seeded_fold_witness :
    ∃ v : Nat, build_data sample_capture 25 = some v ∧ v < 512 ∧
      v = spec_fold 0 (spec_levels sample_capture (25 + 36) 9) ∧
      v = spec_msb_first (spec_levels sample_capture (25 + 36) 9) :=
  build_data_seeded_fold sample_capture 25 (by decide) (by decide)

theorem spec_pattern_xor (data mask : Nat) (hm : ∀ i, i < 7 → mask.testBit (i + 1) = false) :
    spec_pattern (data ^^^ mask) = spec_pattern data := by
  unfold spec_pattern
  apply Nat.eq_of_testBit_eq
  intro i
  simp only [Nat.testBit_and, Nat.testBit_shiftRight, Nat.testBit_xor]
  by_cases hi : i < 7
  · have h := hm i hi
    rw [Nat.add_comm] at h
    rw [h]
    simp
  · have hz : Nat.testBit 0x7F i = false := Nat.testBit_lt_two_pow (by
      calc (0x7F : Nat) < 2 ^ 7 := by decide
        _ ≤ 2 ^ i := Nat.pow_le_pow_right (by decide) (by omega))
    rw [hz]
    simp

theorem testBit_one_succ (i : Nat) : Nat.testBit 1 (i + 1) = false :=
  Nat.testBit_lt_two_pow (by
    calc (1 : Nat) < 2 ^ 1 := by decide
      _ ≤ 2 ^ (i + 1) := Nat.pow_le_pow_right (by decide) (by omega))

theorem testBit_0x100_succ (i : Nat) (hi : i < 7) : Nat.testBit 0x100 (i + 1) = false := by
  have h : (0x100 : Nat) = 2 ^ 8 := by decide
  rw [h, Nat.testBit_two_pow]
  simp
  omega

/-- C7: for every data value (9-bit ones in particular), `get_digit_from_data` returns the
digit that the fixed table assigns to the pattern (data >> 1) & 0x7F, and returns -1 for
every pattern not in the table; every table digit lies in 0..9, so -1 is outside the
valid range; flipping the lowest bit or the ninth bit of data does not change the
result. -/
theorem get_digit_from_data_table (data : Nat) :
    (∀ d : Int, (spec_pattern data, d) ∈ spec_digit_table → get_digit_from_data data = d) ∧
    (spec_pattern data ∉ spec_patterns → get_digit_from_data data = -1) ∧
    (∀ (p : Nat) (d : Int), (p, d) ∈ spec_digit_table → 0 ≤ d ∧ d ≤ 9) ∧
    get_digit_from_data (data ^^^ 0x001) = get_digit_from_data data ∧
    get_digit_from_data (data ^^^ 0x100) = get_digit_from_data data := by
  refine ⟨fun d hd => get_digit_from_data_mem data d hd,
    fun hn => get_digit_from_data_not_mem data hn, ?_, ?_, ?_⟩
  · intro p d hpd
    simp only [spec_digit_table, List.mem_cons, Prod.mk.injEq, List.mem_singleton,
      List.not_mem_nil, or_false] at hpd
    omega
  · exact get_digit_from_data_congr _ _
      (spec_pattern_xor data 1 (fun i _ => testBit_one_succ i))
  · exact get_digit_from_data_congr _ _
      (spec_pattern_xor data 0x100 (fun i hi => testBit_0x100_succ i hi))

theorem get_digit_from_data_table_witness :
    get_digit_from_data 0x0A = 1 ∧ get_digit_from_data 0x10A = get_digit_from_data 0x0A :=
  ⟨(get_digit_from_data_table 0x0A).1 1 (by decide),
   (get_digit_from_data_table 0x0A).2.2.2.2⟩

/-- C8: under `build_address`, an address field whose eight line levels in order are
1,0,1,0,0,0,0,0 decodes to 0xA0, and the fold is order-sensitive: there are two captures
whose address fields at the same offset are the reverse of one another and decode to
different addresses (here 0xA0 and 0x05). -/
theorem build_address_order_sensitive :
    (∀ (packet_bits : List Nat) (offset : Nat),
      packet_bits.length = 104 → offset + 36 + 8 ≤ 104 →
      spec_levels packet_bits (offset + 36) 8 = [1, 0, 1, 0, 0, 0, 0, 0] →
      build_address packet_bits offset = some 0xA0) ∧
    (∃ (packet_bits reversed : List Nat) (offset : Nat),
      packet_bits.length = 104 ∧ reversed.length = 104 ∧ offset + 36 + 8 ≤ 104 ∧
      spec_levels packet_bits (offset + 36) 8 = [1, 0, 1, 0, 0, 0, 0, 0] ∧
      spec_levels reversed (offset + 36) 8
        = (spec_levels packet_bits (offset + 36) 8).reverse ∧
      build_address packet_bits offset = some 0xA0 ∧
      build_address reversed offset = some 0x05 ∧
      build_address reversed offset ≠ build_address packet_bits offset) := by
  constructor
  · intro packet_bits offset hlen hoff hlv
    rw [build_address_eq_msb_first packet_bits offset hlen hoff]
    have hh : PACKET_BITS_HEADER = 36 := rfl
    rw [hh, hlv]
    rfl
  · exact ⟨sample_capture, capture_reversed_address, 0, by decide, by decide, by decide,
      by decide, by decide, by decide, by decide, by decide⟩

theorem build_address_order_sensitive_witness :
    build_address sample_capture 0 = some 0xA0 :=
  build_address_order_sensitive.1 sample_capture 0 (by decide) (by decide) (by decide)

/-! ## The stopped flag -/

theorem spec_levels_set_outside (buf : List Nat) (i s start width : Nat)
    (h : i < start ∨ start + width ≤ i) :
    spec_levels (buf.set i s) start width = spec_levels buf start width := by
  unfold spec_levels
  apply List.map_congr_left
  intro k hk
  have hk2 : k < width := List.mem_range.1 hk
  have hne : i ≠ start + k := by omega
  simp [List.getD_eq_getElem?_getD, List.getElem?_set_ne hne]

theorem spec_field_set_outside (buf : List Nat) (i s offset width : Nat)
    (h : i < offset + 36 ∨ offset + 36 + width ≤ i) :
    spec_field (buf.set i s) offset width = spec_field buf offset width := by
  unfold spec_field
  rw [spec_levels_set_outside buf i s (offset + PACKET_BITS_HEADER) width h]

theorem spec_field_succ (buf : List Nat) (offset width : Nat) :
    spec_field buf offset (width + 1)
      = 2 * spec_field buf offset width + spec_level (buf.getD (offset + 36 + width) 0) := by
  have h1 := spec_fold_eq_msb_first _ 0
    (spec_levels_le_one buf (offset + PACKET_BITS_HEADER) (width + 1))
  have h0 := spec_fold_eq_msb_first _ 0
    (spec_levels_le_one buf (offset + PACKET_BITS_HEADER) width)
  simp only [Nat.zero_mul, Nat.zero_add] at h1 h0
  unfold spec_field
  rw [← h1, ← h0, spec_levels_succ, spec_fold_snoc, shl_xor_bit _ _ (spec_level_le_one _)]
  rfl

theorem spec_level_flip (s : Nat) : spec_level (s ^^^ 0x10) = 1 - spec_level s := by
  unfold spec_level
  have h : Nat.testBit 0x10 4 = true := by decide
  rw [Nat.testBit_xor, h]
  cases s.testBit 4 <;> simp

theorem spindle_stopped_eq (a b : Nat) (hb : b ≤ 1) : spindle_stopped (2 * a + b) = b := by
  unfold spindle_stopped
  rw [Nat.and_one_is_mod]
  omega

theorem spec_pattern_low_bit (a b c : Nat) (hb : b ≤ 1) (hc : c ≤ 1) :
    spec_pattern (2 * a + b) = spec_pattern (2 * a + c) := by
  rw [spec_pattern_eq_div_mod, spec_pattern_eq_div_mod]
  have h1 : (2 * a + b) / 2 = a := by omega
  have h2 : (2 * a + c) / 2 = a := by omega
  rw [h1, h2]

/-- C9: the resolver never reads the stopped flag. For every 104-sample buffer, flipping
the line level of the last bit of frame 2's data field (nominal index 50, corrected
index 86, the lowest bit of `build_data 42`) changes the flag that `spindle_stopped`
reads from that field and leaves the result of `get_rpm` unchanged. -/
theorem get_rpm_ignores_stopped_flag (packet_bits : List Nat)
    (hlen : packet_bits.length = 104) :
    (build_data (flip_level packet_bits (50 + 36)) 42).map spindle_stopped
        ≠ (build_data packet_bits 42).map spindle_stopped ∧
      get_rpm (flip_level packet_bits (50 + 36)) = get_rpm packet_bits := by
  have hlen2 : (flip_level packet_bits (50 + 36)).length = PACKET_BITS_COUNT := by
    simp [flip_level, hlen, PACKET_BITS_COUNT, PACKET_BITS, PACKET_BITS_HEADER]
  obtain ⟨e0, e1, e2, e3, e4, e5, e6, e7⟩ := fields_decode packet_bits hlen
  obtain ⟨f0, f1, f2, f3, f4, f5, f6, f7⟩ := fields_decode _ hlen2
  have s0 : spec_field (flip_level packet_bits (50 + 36)) 0 8 = spec_field packet_bits 0 8 :=
    spec_field_set_outside _ _ _ _ _ (by omega)
  have s1 : spec_field (flip_level packet_bits (50 + 36)) 8 9 = spec_field packet_bits 8 9 :=
    spec_field_set_outside _ _ _ _ _ (by omega)
  have s2 : spec_field (flip_level packet_bits (50 + 36)) 17 8 = spec_field packet_bits 17 8 :=
    spec_field_set_outside _ _ _ _ _ (by omega)
  have s3 : spec_field (flip_level packet_bits (50 + 36)) 25 9 = spec_field packet_bits 25 9 :=
    spec_field_set_outside _ _ _ _ _ (by omega)
  have s4 : spec_field (flip_level packet_bits (50 + 36)) 34 8 = spec_field packet_bits 34 8 :=
    spec_field_set_outside _ _ _ _ _ (by omega)
  have s5 : spec_field (flip_level packet_bits (50 + 36)) 42 8 = spec_field packet_bits 42 8 :=
    spec_field_set_outside _ _ _ _ _ (by omega)
  have s6 : spec_field (flip_level packet_bits (50 + 36)) 51 8 = spec_field packet_bits 51 8 :=
    spec_field_set_outside _ _ _ _ _ (by omega)
  have s7 : spec_field (flip_level packet_bits (50 + 36)) 59 9 = spec_field packet_bits 59 9 :=
    spec_field_set_outside _ _ _ _ _ (by omega)
  have hget : (flip_level packet_bits (50 + 36)).getD (42 + 36 + 8) 0
      = packet_bits.getD (42 + 36 + 8) 0 ^^^ 0x10 := by
    have h86 : 50 + 36 < packet_bits.length := by omega
    simp [flip_level, List.getD_eq_getElem?_getD, List.getElem?_set_self h86]
  have hnew := spec_field_succ (flip_level packet_bits (50 + 36)) 42 8
  have hold := spec_field_succ packet_bits 42 8
  rw [s5, hget, spec_level_flip] at hnew
  have hb := spec_level_le_one (packet_bits.getD (42 + 36 + 8) 0)
  constructor
  · rw [f5, e5, hnew, hold]
    simp only [Option.map_some', ne_eq, Option.some.injEq]
    rw [spindle_stopped_eq _ _ (by omega), spindle_stopped_eq _ _ hb]
    omega
  · have hp : get_digit_from_data (spec_field (flip_level packet_bits (50 + 36)) 42 9)
        = get_digit_from_data (spec_field packet_bits 42 9) := by
      apply get_digit_from_data_congr
      rw [hnew, hold]
      exact spec_pattern_low_bit _ _ _ (by omega) hb
    simp only [get_rpm, e0, e1, e2, e3, e4, e5, e6, e7, f0, f1, f2, f3, f4, f5, f6, f7,
      s0, s1, s2, s3, s4, s6, s7, hp]

theorem get_rpm_ignores_stopped_flag_witness :
    (build_data capture_stopped 42).map spindle_stopped = some 1 ∧
    (build_data (flip_level capture_stopped (50 + 36)) 42).map spindle_stopped = some 0 ∧
    get_rpm capture_stopped = some 0 ∧
    get_rpm (flip_level capture_stopped (50 + 36)) = get_rpm capture_stopped :=
  ⟨by decide, by decide, by decide,
    (get_rpm_ignores_stopped_flag capture_stopped (by decide)).2⟩

/-! ## The decode step of `loop` -/

theorem get_rpm_total (buf : List Nat) (hlen : buf.length = PACKET_BITS_COUNT) :
    ∃ rpm : Int, get_rpm buf = some rpm := by
  obtain ⟨e0, e1, e2, e3, e4, e5, e6, e7⟩ := fields_decode buf hlen
  simp only [get_rpm, e0, e1, e2, e3, e4, e5, e6, e7]
  split_ifs <;> exact ⟨_, rfl⟩

/-- C10: after a complete capture (104 samples taken, budget not exhausted) the cycle
renders exactly one of three payloads, chosen by the result of `get_rpm`: the text
"err2" when it is -1, the text "Stopped" when it is 0, and otherwise the integer followed
by the label "RPM"; a packet with all three digits 0 and a valid sentinel shows
"Stopped". -/
theorem loop_decode_payload (packet_bits : List Nat) (packet_bits_pos count : Nat)
    (hlen : packet_bits.length = 104)
    (hpos : packet_bits_pos = PACKET_BITS_COUNT) (hcount : count < MAXCOUNT) :
    ∃ (rpm : Int) (calls : List LcdCall),
      get_rpm packet_bits = some rpm ∧
      loop_decode packet_bits packet_bits_pos count = some calls ∧
      (rpm = -1 → spec_payload calls = [.print_text "err2"]) ∧
      (rpm = 0 → spec_payload calls = [.print_text "Stopped"]) ∧
      (rpm ≠ -1 → rpm ≠ 0 → spec_payload calls = [.print_int rpm, .print_text "RPM"]) ∧
      (spec_field packet_bits 0 8 = 0xA0 → spec_field packet_bits 17 8 = 0xA1 →
        spec_field packet_bits 34 8 = 0xA2 → spec_field packet_bits 51 8 = 0xA3 →
        (spec_pattern (spec_field packet_bits 8 9), (0 : Int)) ∈ spec_digit_table →
        (spec_pattern (spec_field packet_bits 25 9), (0 : Int)) ∈ spec_digit_table →
        (spec_pattern (spec_field packet_bits 42 9), (0 : Int)) ∈ spec_digit_table →
        spec_field packet_bits 59 9 = 0x20 →
        spec_payload calls = [.print_text "Stopped"]) := by
  obtain ⟨rpm, hrpm⟩ := get_rpm_total packet_bits hlen
  have hcond : packet_bits_pos = PACKET_BITS_COUNT ∧ count < MAXCOUNT := ⟨hpos, hcount⟩
  have hzero : spec_field packet_bits 0 8 = 0xA0 → spec_field packet_bits 17 8 = 0xA1 →
      spec_field packet_bits 34 8 = 0xA2 → spec_field packet_bits 51 8 = 0xA3 →
      (spec_pattern (spec_field packet_bits 8 9), (0 : Int)) ∈ spec_digit_table →
      (spec_pattern (spec_field packet_bits 25 9), (0 : Int)) ∈ spec_digit_table →
      (spec_pattern (spec_field packet_bits 42 9), (0 : Int)) ∈ spec_digit_table →
      spec_field packet_bits 59 9 = 0x20 → rpm = 0 := by
    intro a0 a1 a2 a3 p1 p2 p3 hs
    have h := get_rpm_of_valid_fields packet_bits 0 0 0 hlen (by decide) (by decide)
      (by decide) a0 a1 a2 a3 p1 p2 p3 hs
    rw [hrpm] at h
    simpa using h
  by_cases h1 : rpm = -1
  · refine ⟨rpm, [.clearDisplay, .setCursor 0 20, .setTextSize 2, .print_text "err2",
      .display], hrpm, ?_, fun _ => rfl, ?_, ?_, ?_⟩
    · simp only [loop_decode, if_pos hcond, hrpm, if_pos h1]
    · intro h0
      omega
    · intro hn
      exact absurd h1 hn
    · intro a0 a1 a2 a3 p1 p2 p3 hs
      have := hzero a0 a1 a2 a3 p1 p2 p3 hs
      omega
  · by_cases h0 : rpm = 0
    · refine ⟨rpm, [.clearDisplay, .setCursor 0 20, .setTextSize 2, .print_text "Stopped",
        .display], hrpm, ?_, ?_, fun _ => rfl, ?_, ?_⟩
      · simp only [loop_decode, if_pos hcond, hrpm, if_neg h1, if_pos h0]
      · intro hn
        exact absurd hn h1
      · intro _ hn
        exact absurd h0 hn
      · intro _ _ _ _ _ _ _ _
        rfl
    · refine ⟨rpm, [.clearDisplay, .setCursor 0 20, .setTextSize 4, .print_int rpm,
        .setTextSize 1, .setCursor 95 55, .print_text "RPM", .display],
        hrpm, ?_, ?_, ?_, fun _ _ => rfl, ?_⟩
      · simp only [loop_decode, if_pos hcond, hrpm, if_neg h1, if_neg h0]
      · intro hn
        exact absurd hn h1
      · intro hn
        exact absurd hn h0
      · intro a0 a1 a2 a3 p1 p2 p3 hs
        exact absurd (hzero a0 a1 a2 a3 p1 p2 p3 hs) h0

theorem loop_decode_payload_witness :
    ∃ (rpm : Int) (calls : List LcdCall),
      get_rpm capture_stopped = some rpm ∧
      loop_decode capture_stopped 104 1000 = some calls ∧
      (rpm = -1 → spec_payload calls = [.print_text "err2"]) ∧
      (rpm = 0 → spec_payload calls = [.print_text "Stopped"]) ∧
      (rpm ≠ -1 → rpm ≠ 0 → spec_payload calls = [.print_int rpm, .print_text "RPM"]) ∧
      (spec_field capture_stopped 0 8 = 0xA0 → spec_field capture_stopped 17 8 = 0xA1 →
        spec_field capture_stopped 34 8 = 0xA2 → spec_field capture_stopped 51 8 = 0xA3 →
        (spec_pattern (spec_field capture_stopped 8 9), (0 : Int)) ∈ spec_digit_table →
        (spec_pattern (spec_field capture_stopped 25 9), (0 : Int)) ∈ spec_digit_table →
        (spec_pattern (spec_field capture_stopped 42 9), (0 : Int)) ∈ spec_digit_table →
        spec_field capture_stopped 59 9 = 0x20 →
        spec_payload calls = [.print_text "Stopped"]) :=
  loop_decode_payload capture_stopped 104 1000 (by decide) (by decide) (by decide)

/-! ## The capture cycle -/

theorem clear_loop_spec (n : Nat) :
    ∀ (buf : List Nat) (k fuel : Nat), buf.length = 104 → k + n = 104 → n < fuel →
      (∀ i, i < k → buf.getD i 0 = 0) →
      ∃ bits, clear_loop buf fuel k = some (bits, 104) ∧ bits.length = 104 ∧
        ∀ i, i < 104 → bits.getD i 0 = 0 := by
  induction n with
  | zero =>
    intro buf k fuel hlen hk hf hz
    obtain ⟨f, rfl⟩ : ∃ f, fuel = f + 1 := ⟨fuel - 1, by omega⟩
    have hk2 : k = 104 := by omega
    subst hk2
    exact ⟨buf, by simp [clear_loop, PACKET_BITS_COUNT, PACKET_BITS, PACKET_BITS_HEADER],
      hlen, hz⟩
  | succ n ih =>
    intro buf k fuel hlen hk hf hz
    obtain ⟨f, rfl⟩ : ∃ f, fuel = f + 1 := ⟨fuel - 1, by omega⟩
    have hc : PACKET_BITS_COUNT = 104 := rfl
    have h1 : k < PACKET_BITS_COUNT := by omega
    have h2 : k < buf.length := by omega
    have h3 : (k + 1) % 256 = k + 1 := by omega
    rw [clear_loop, if_pos h1, if_pos h2, h3]
    apply ih (buf.set k 0) (k + 1) f (by simp [hlen]) (by omega) (by omega)
    intro i hi
    by_cases hik : i = k
    · subst hik
      simp [List.getD_eq_getElem?_getD, List.getElem?_set_self h2]
    · have hne : k ≠ i := fun h => hik h.symm
      have := hz i (by omega)
      simpa [List.getD_eq_getElem?_getD, List.getElem?_set_ne hne] using this

theorem eq_replicate_zero (bits : List Nat) (hlen : bits.length = 104)
    (hz : ∀ i, i < 104 → bits.getD i 0 = 0) : bits = List.replicate 104 0 := by
  apply List.ext_getElem
  · simp [hlen]
  · intro i h1 h2
    have := hz i (by omega)
    simp only [List.getD_eq_getElem?_getD, List.getElem?_eq_getElem h1,
      Option.getD_some] at this
    rw [List.getElem_replicate]
    exact this

theorem clear_loop_eq (buf : List Nat) (hlen : buf.length = 104) :
    clear_loop buf 257 0 = some (List.replicate 104 0, 104) := by
  obtain ⟨bits, h, hl, hz⟩ := clear_loop_spec 104 buf 0 257 hlen (by omega) (by omega)
    (fun i hi => absurd hi (by omega))
  rw [h, eq_replicate_zero bits hl hz]

theorem loop_decode_total (buf : List Nat) (pos count : Nat) (hlen : buf.length = 104) :
    ∃ calls, loop_decode buf pos count = some calls := by
  obtain ⟨rpm, hrpm⟩ := get_rpm_total buf hlen
  unfold loop_decode
  rw [hrpm]
  simp only
  split_ifs <;> exact ⟨_, rfl⟩

theorem getD_replicate_zero (n i : Nat) : (List.replicate n 0).getD i 0 = 0 := by
  by_cases h : i < n
  · simp [List.getD_eq_getElem?_getD, List.getElem?_replicate, h]
  · simp [List.getD_eq_getElem?_getD, List.getElem?_replicate, h]

theorem inv_init : Inv after_setup_enable := by
  simp [Inv, after_setup_enable, PACKET_BITS_COUNT, PACKET_BITS, PACKET_BITS_HEADER, MAXCOUNT]

theorem inv_step (e : Event) (m : Machine) (h : Inv m) : Inv (step e m) := by
  obtain ⟨pc, bits, pos, count, int1, lcd, fault, edges, cycles⟩ := m
  unfold step
  cases fault with
  | true => simpa using h
  | false =>
    cases e with
    | edge pind =>
      cases int1 with
      | false => simpa using h
      | true =>
        simp only [Inv] at h
        obtain ⟨hlen, hcount, -, hgood, hpc⟩ := h
        have hg := hgood trivial
        have hpe : pos = edges := hg.2 trivial
        subst hpe
        simp only [if_true, Bool.false_eq_true, if_false, INT1_vect, hlen]
        by_cases hlt : pos < 104
        · rw [if_pos hlt]
          have hm : (pos + 1) % 256 = pos + 1 := by omega
          simp only [Inv, List.length_set, hlen, hm]
          refine ⟨trivial, hcount, by simp, ?_, ?_⟩
          · simp
            omega
          cases pc <;> simp_all
        · rw [if_neg hlt]
          have h104 : pos = 104 := by omega
          subst h104
          simp only [Inv, hlen]
          refine ⟨trivial, hcount, by simp, by simp, ?_⟩
          cases pc <;> simp_all
    | main lcdcs_low =>
      simp only [Inv] at h
      obtain ⟨hlen, hcount, -, hgood, hpc⟩ := h
      have hg := hgood trivial
      simp only [Bool.false_eq_true, if_false]
      cases pc with
      | setup_tail =>
        simp only [main_step, Inv]
        simp_all
      | cycle_start =>
        simp only [main_step, Inv]
        simp_all
        rcases hpc with ⟨h1, h2⟩ | ⟨h1, h2, -⟩
        · exact Or.inl ⟨h1, h2⟩
        · exact Or.inr ⟨h1, h2⟩
      | await_bus =>
        cases lcdcs_low <;> simp only [main_step, Inv] <;> simp_all
      | settle =>
        simp only [main_step, Inv]
        simp_all
      | enable =>
        simp only [main_step, Inv]
        simp_all
        rcases hpc with ⟨-, h2⟩ | ⟨-, -, h3, h4⟩
        · exact hg.2 h2
        · omega
      | capture_init =>
        simp only [main_step, Inv]
        simp_all [MAXCOUNT]
      | capture =>
        simp only [main_step]
        by_cases hc : capture_cond pos count = true
        · rw [if_pos hc]
          simp only [capture_cond, Bool.and_eq_true, decide_eq_true_eq] at hc
          have : (count + 1) % 4294967296 = count + 1 := by
            have := hc.2
            simp only [MAXCOUNT] at this
            omega
          simp only [Inv, this]
          simp_all
          omega
        · rw [if_neg hc]
          simp only [Inv]
          simp_all
      | disable =>
        simp only [main_step, Inv]
        simp_all
      | decode =>
        obtain ⟨calls, hcalls⟩ := loop_decode_total bits pos count hlen
        simp only [main_step, hcalls, Inv]
        simp_all
      | clear =>
        simp only [main_step, clear_loop_eq bits hlen, Inv]
        simp_all


theorem inv_run (events : List Event) : ∀ m : Machine, Inv m → Inv (run events m) := by
  induction events with
  | nil => intro m h; exact h
  | cons e es ih =>
    intro m h
    exact ih (step e m) (inv_step e m h)

theorem fresh_step (e : Event) (m : Machine) (h : Inv m) (hf : Fresh m) :
    Fresh (step e m) := by
  obtain ⟨pc, bits, pos, count, int1, lcd, fault, edges, cycles⟩ := m
  unfold step
  cases fault with
  | true => simpa using hf
  | false =>
    simp only [Inv] at h
    obtain ⟨hlen, hcount, -, hgood, hpc⟩ := h
    have hg := hgood trivial
    cases e with
    | edge pind =>
      cases int1 with
      | false => simpa using hf
      | true =>
        simp only [if_true, Bool.false_eq_true, if_false, INT1_vect, hlen]
        by_cases hlt : pos < 104
        · rw [if_pos hlt]
          have hm : (pos + 1) % 256 = pos + 1 := by omega
          simp only [Fresh, hm]
          intro hc _ h1 h2 i hi
          have hne : pos ≠ i := by omega
          have := hf hc rfl h1 h2 i (by simp only; omega)
          simpa [List.getD_eq_getElem?_getD, List.getElem?_set_ne hne] using this
        · rw [if_neg hlt]
          simp [Fresh]
    | main lcdcs_low =>
      simp only [Bool.false_eq_true, if_false]
      cases pc with
      | setup_tail => simp [main_step, Fresh]
      | cycle_start =>
        simp only [main_step, Fresh]
        intro hc _ _ _ i _
        simp only at hpc hc
        rcases hpc with ⟨h0, -⟩ | ⟨-, -, -, hb⟩
        · omega
        · rw [hb]
          exact getD_replicate_zero 104 i
      | await_bus =>
        cases lcdcs_low
        · simp only [main_step, Fresh, Bool.false_eq_true, if_false]
          intro hc _ _ _ i hi
          exact hf hc rfl (by simp) (by simp) i hi
        · simpa [main_step] using hf
      | settle =>
        simp only [main_step, Fresh]
        intro hc _ _ _ i hi
        exact hf hc rfl (by simp) (by simp) i hi
      | enable =>
        simp only [main_step, Fresh]
        intro hc _ _ _ i hi
        exact hf hc rfl (by simp) (by simp) i hi
      | capture_init =>
        simp only [main_step, Fresh]
        intro hc _ _ _ i hi
        exact hf hc rfl (by simp) (by simp) i hi
      | capture =>
        simp only [main_step]
        split
        · simp only [Fresh]
          intro hc _ _ _ i hi
          exact hf hc rfl (by simp) (by simp) i hi
        · simp only [Fresh]
          intro hc _ _ _ i hi
          exact hf hc rfl (by simp) (by simp) i hi
      | disable =>
        simp only [main_step, Fresh]
        intro hc _ _ _ i hi
        exact hf hc rfl (by simp) (by simp) i hi
      | decode =>
        obtain ⟨calls, hcalls⟩ := loop_decode_total bits pos count hlen
        simp [main_step, hcalls, Fresh]
      | clear =>
        simp [main_step, clear_loop_eq bits hlen, Fresh]

theorem fresh_run (events : List Event) :
    ∀ m : Machine, Inv m → Fresh m → Fresh (run events m) := by
  induction events with
  | nil => intro m _ h; exact h
  | cons e es ih =>
    intro m h hf
    exact ih (step e m) (inv_step e m h) (fresh_step e m h hf)

theorem fresh_init : Fresh after_setup_enable := by
  simp [Fresh, after_setup_enable]

/-! ## The capture wait -/

theorem capture_wait_spec (observed : Nat → Nat) :
    ∀ (n count fuel : Nat), count + n = MAXCOUNT → n < fuel →
      ∃ c, capture_wait observed fuel count = some c ∧ count ≤ c ∧ c ≤ MAXCOUNT ∧
        (∀ j, count ≤ j → j < c → observed j < 104) ∧ (c < MAXCOUNT → 104 ≤ observed c) := by
  intro n
  induction n with
  | zero =>
    intro count fuel hc hf
    obtain ⟨f, rfl⟩ : ∃ f, fuel = f + 1 := ⟨fuel - 1, by omega⟩
    have hcm : count = MAXCOUNT := by omega
    refine ⟨count, ?_, Nat.le_refl _, by omega, fun j h1 h2 => absurd h2 (by omega),
      fun h => absurd h (by omega)⟩
    simp [capture_wait, capture_cond, hcm]
  | succ n ih =>
    intro count fuel hc hf
    obtain ⟨f, rfl⟩ : ∃ f, fuel = f + 1 := ⟨fuel - 1, by omega⟩
    have hlt : count < MAXCOUNT := by omega
    have hM : MAXCOUNT = 503500 := rfl
    have hnext : (count + 1) % 4294967296 = count + 1 := by omega
    by_cases hobs : observed count < 104
    · have hcond : capture_cond (observed count) count = true := by
        simp [capture_cond, hobs, hlt, PACKET_BITS_COUNT, PACKET_BITS, PACKET_BITS_HEADER]
      obtain ⟨c, h1, h2, h3, h4, h5⟩ := ih (count + 1) f (by omega) (by omega)
      refine ⟨c, ?_, by omega, h3, ?_, h5⟩
      · rw [capture_wait, if_pos hcond, hnext, h1]
      · intro j hj1 hj2
        by_cases hj : j = count
        · rw [hj]; exact hobs
        · exact h4 j (by omega) hj2
    · have hcond : ¬ (capture_cond (observed count) count = true) := by
        simp [capture_cond, hobs, PACKET_BITS_COUNT, PACKET_BITS, PACKET_BITS_HEADER]
      refine ⟨count, ?_, Nat.le_refl _, by omega, fun j h1 h2 => absurd h2 (by omega),
        fun _ => by omega⟩
      rw [capture_wait, if_neg hcond]

theorem capture_wait_timeout (observed : Nat → Nat)
    (h : ∀ k, k ≤ MAXCOUNT → observed k < 104) :
    capture_wait observed (MAXCOUNT + 1) 0 = some MAXCOUNT := by
  obtain ⟨c, h1, -, h3, -, h5⟩ :=
    capture_wait_spec observed MAXCOUNT 0 (MAXCOUNT + 1) (by omega) (by omega)
  have hc : c = MAXCOUNT := by
    by_contra hne
    have hlt : c < MAXCOUNT := by omega
    have := h5 hlt
    have := h c h3
    omega
  rw [h1, hc]

theorem loop_decode_skip (buf : List Nat) (pos count : Nat)
    (h : ¬ (pos = PACKET_BITS_COUNT ∧ count < MAXCOUNT)) : loop_decode buf pos count = some [] := by
  unfold loop_decode
  rw [if_neg h]

theorem loop_decode_ne_nil (buf : List Nat) (pos count : Nat) (calls : List LcdCall)
    (h : pos = PACKET_BITS_COUNT ∧ count < MAXCOUNT)
    (hc : loop_decode buf pos count = some calls) : calls ≠ [] := by
  unfold loop_decode at hc
  rw [if_pos h] at hc
  split at hc
  · exact absurd hc (by simp)
  · split_ifs at hc <;> simp at hc <;> simp [← hc]

/-- C11 (as stated, refuted): with the cursor stuck at 50 through the whole budget, the
cycle makes no call on the display at all, so its payload is not the error text. -/
theorem timeout_payload_is_not_error :
    (∀ k, k ≤ MAXCOUNT → observed_stuck k < 104) ∧
    loop_capture sample_capture observed_stuck = some (MAXCOUNT, []) ∧
    spec_payload [] ≠ [LcdCall.print_text "err2"] := by
  have h : ∀ k, k ≤ MAXCOUNT → observed_stuck k < 104 := fun _ _ => by
    simp [observed_stuck]
  refine ⟨h, ?_, by decide⟩
  rw [loop_capture, capture_wait_timeout observed_stuck h, Option.some_bind, loop_check,
    loop_decode_skip _ _ _ (by simp)]

/-- C11 (amended): if fewer than 104 bits have been sampled at every read of the wait up
to the exhaustion of the budget, the wait ends with `count = MAXCOUNT`, the cycle makes
no call on the display (the decode is skipped, whatever the buffer holds), and the
clearing loop leaves all 104 entries zero. -/
theorem timeout_skips_decode_and_clears (packet_bits : List Nat) (observed : Nat → Nat)
    (hlen : packet_bits.length = 104)
    (hlow : ∀ k, k ≤ MAXCOUNT → observed k < 104) :
    loop_capture packet_bits observed = some (MAXCOUNT, []) ∧
    clear_loop packet_bits 257 0 = some (List.replicate 104 0, 104) := by
  refine ⟨?_, clear_loop_eq packet_bits hlen⟩
  rw [loop_capture, capture_wait_timeout observed hlow, Option.some_bind, loop_check,
    loop_decode_skip _ _ _ (by simp)]

theorem timeout_skips_decode_and_clears_witness :
    loop_capture sample_capture observed_stuck = some (MAXCOUNT, []) ∧
    clear_loop sample_capture 257 0 = some (List.replicate 104 0, 104) :=
  timeout_skips_decode_and_clears sample_capture observed_stuck (by decide)
    (fun _ _ => by simp [observed_stuck])

/-- C12: the clearing loop, run on any 104-entry buffer with its 8-bit cursor, ends with
the cursor at 104 and every entry 0; in every reachable state at the end of a pass of
`loop`, whatever the pass did, the buffer is all zero; so in every later pass, up to and
including its decode, every entry at or beyond the cursor is 0: nothing sampled in an
earlier pass is left. -/
theorem buffer_zero_at_cycle_end :
    (∀ packet_bits : List Nat, packet_bits.length = 104 →
      clear_loop packet_bits 257 0 = some (List.replicate 104 0, 104)) ∧
    (∀ events : List Event,
      (run events after_setup_enable).pc = Pc.cycle_start →
      1 ≤ (run events after_setup_enable).cycles →
      (run events after_setup_enable).packet_bits = List.replicate 104 0) ∧
    (∀ events : List Event,
      (run events after_setup_enable).pc = Pc.decode →
      1 ≤ (run events after_setup_enable).cycles →
      ∀ i, (run events after_setup_enable).packet_bits_pos ≤ i →
        (run events after_setup_enable).packet_bits.getD i 0 = 0) := by
  refine ⟨clear_loop_eq, ?_, ?_⟩
  · intro events hpc hc
    have h := inv_run events after_setup_enable inv_init
    simp only [Inv, hpc] at h
    obtain ⟨-, -, -, -, h5⟩ := h
    rcases h5 with ⟨h0, -⟩ | ⟨-, -, -, hb⟩
    · omega
    · exact hb
  · intro events hpc hc i hi
    have h := inv_run events after_setup_enable inv_init
    have hf := fresh_run events after_setup_enable inv_init fresh_init
    simp only [Inv, hpc] at h
    obtain ⟨-, -, -, -, -, -, h5⟩ := h
    exact hf hc h5 (by simp [hpc]) (by simp [hpc]) i hi

set_option maxRecDepth 4000 in
theorem buffer_zero_at_cycle_end_witness :
    (run first_pass_events after_setup_enable).pc = Pc.cycle_start ∧
    1 ≤ (run first_pass_events after_setup_enable).cycles ∧
    (run first_pass_events after_setup_enable).packet_bits = List.replicate 104 0 :=
  ⟨by decide, by decide,
    buffer_zero_at_cycle_end.2.1 first_pass_events (by decide) (by decide)⟩

/-! ## The sampler and the main line -/

set_option maxRecDepth 4000 in
/-- C13 (as stated, refuted): after the rest of `setup`, the statements of `loop` up to
the capture wait and 105 clock edges, the machine is in the capture wait with the cursor
at 105, past the capacity of 104, and the last edge has stored outside the buffer. -/
theorem cursor_exceeds_capacity :
    (run overrun_events after_setup_enable).pc = Pc.capture ∧
    (run overrun_events after_setup_enable).packet_bits_pos = 105 ∧
    (run overrun_events after_setup_enable).fault = true := by
  decide

/-- C13 (amended): in every reachable state of the capture cycle in which at most 104
clock edges have been sampled since the cursor was last reset, the cursor does not
exceed 104 and no sample has been stored outside the buffer; while the sampler is
enabled the cursor is that number of edges. -/
theorem cursor_within_capacity (events : List Event)
    (hedges : (run events after_setup_enable).edges ≤ 104) :
    (run events after_setup_enable).packet_bits_pos ≤ 104 ∧
    (run events after_setup_enable).fault = false ∧
    ((run events after_setup_enable).int1 = true →
      (run events after_setup_enable).packet_bits_pos
        = (run events after_setup_enable).edges) := by
  have h := inv_run events after_setup_enable inv_init
  generalize run events after_setup_enable = m at h hedges
  obtain ⟨pc, bits, pos, count, int1, lcd, fault, edges, cycles⟩ := m
  simp only [Inv] at h
  simp only at hedges ⊢
  obtain ⟨-, -, hfault, hgood, hpc⟩ := h
  have hf : fault = false := by
    cases fault with
    | false => rfl
    | true =>
      have := (hfault rfl).2.2
      omega
  subst hf
  have hg := hgood rfl
  refine ⟨?_, rfl, hg.2⟩
  cases int1 with
  | true =>
    have := hg.2 rfl
    omega
  | false =>
    cases pc <;> simp_all

set_option maxRecDepth 4000 in
theorem cursor_within_capacity_witness :
    (run window_events after_setup_enable).packet_bits_pos ≤ 104 ∧
    (run window_events after_setup_enable).fault = false ∧
    ((run window_events after_setup_enable).int1 = true →
      (run window_events after_setup_enable).packet_bits_pos
        = (run window_events after_setup_enable).edges) :=
  cursor_within_capacity window_events (by decide)

set_option maxRecDepth 4000 in
/-- C14 (as stated, refuted): from the state `setup` leaves behind, the first pass of
`loop` waits for the bus with the interrupt enabled, and a clock edge arriving then is
stored in the buffer. -/
theorem sampler_enabled_outside_capture :
    outside_capture (run [.main false, .main false] after_setup_enable).pc = true ∧
    (run [.main false, .main false] after_setup_enable).pc = Pc.await_bus ∧
    (run [.main false, .main false] after_setup_enable).int1 = true ∧
    (run [.main false, .main false, .edge 0x10] after_setup_enable).pc = Pc.await_bus ∧
    (run [.main false, .main false, .edge 0x10] after_setup_enable).packet_bits.getD 0 0
      = 0x10 := by
  decide

/-- C14 (amended): in every reachable state in which the main loop is decoding or
clearing the buffer, and in every reachable state of a pass after the first in which it
is waiting for the bus or in the settle delay, the clock-edge interrupt is disabled. -/
theorem sampler_disabled_outside_capture (events : List Event)
    (hout : outside_capture (run events after_setup_enable).pc = true)
    (hpass : 1 ≤ (run events after_setup_enable).cycles ∨
      (run events after_setup_enable).pc = Pc.decode ∨
      (run events after_setup_enable).pc = Pc.clear) :
    (run events after_setup_enable).int1 = false := by
  have h := inv_run events after_setup_enable inv_init
  generalize run events after_setup_enable = m at h hout hpass
  obtain ⟨pc, bits, pos, count, int1, lcd, fault, edges, cycles⟩ := m
  simp only [Inv] at h
  simp only at hout hpass ⊢
  obtain ⟨-, -, -, -, hpc⟩ := h
  cases pc <;> simp [outside_capture] at hout hpass hpc ⊢
  · rcases hpc with ⟨h0, -⟩ | ⟨-, h2, -⟩
    · omega
    · exact h2
  · rcases hpc with ⟨h0, -⟩ | ⟨-, h2, -⟩
    · omega
    · exact h2
  · exact hpc.1
  · exact hpc.1

set_option maxRecDepth 4000 in
theorem sampler_disabled_outside_capture_witness :
    (run (first_pass_events ++ [.main false, .main true, .edge 0x10]) after_setup_enable).pc
      = Pc.await_bus ∧
    (run (first_pass_events ++ [.main false, .main true, .edge 0x10])
      after_setup_enable).int1 = false :=
  ⟨by decide,
   sampler_disabled_outside_capture
     (first_pass_events ++ [.main false, .main true, .edge 0x10]) (by decide)
     (Or.inl (by decide))⟩

/-! ## Completion of the capture wait -/

/-- C15 (as stated, refuted): the fourth read of the wait, made with `count = 3`, finds
the cursor at 104 with almost the whole budget left, so the wait ends; one more edge
arrives before the interrupt is disabled, the check finds 105, and the cycle does not
decode: it makes no call on the display. -/
theorem reached_but_not_decoded :
    (∀ k, k < 3 → observed_late_edge k < 104) ∧
    (3 < MAXCOUNT ∧ observed_late_edge 3 = 104) ∧
    observed_late_edge 4 = 105 ∧
    capture_wait observed_late_edge (MAXCOUNT + 1) 0 = some 3 ∧
    loop_capture sample_capture observed_late_edge = some (3, []) := by
  decide

/-- C15 (amended): for every sequence of cursor values the main line reads, the wait
ends after at most MAXCOUNT iterations, at the first read that finds the cursor at 104
or more, or else when `count` reaches MAXCOUNT. The cycle then takes the decode step
with that `count` and the next value read, and it goes on to decode (it makes calls on
the display) if and only if a read made before the budget was exhausted, with
`count < MAXCOUNT`, found the cursor at 104 or more and the check after the wait finds
it at exactly 104; otherwise the decode is skipped and no call is made. When the cursor
never decreases and never exceeds 104, that is: if and only if a read made before the
budget was exhausted found the cursor at 104. -/
theorem capture_wait_decides (packet_bits : List Nat) (observed : Nat → Nat)
    (hlen : packet_bits.length = 104) :
    ∃ (count : Nat) (calls : List LcdCall),
      capture_wait observed (MAXCOUNT + 1) 0 = some count ∧
      loop_decode packet_bits (observed (count + 1)) count = some calls ∧
      loop_capture packet_bits observed = some (count, calls) ∧
      count ≤ MAXCOUNT ∧
      (∀ j, j < count → observed j < 104) ∧
      (count < MAXCOUNT → 104 ≤ observed count) ∧
      (calls ≠ [] ↔
        (∃ k, k < MAXCOUNT ∧ 104 ≤ observed k) ∧ observed (count + 1) = 104) ∧
      (calls = [] ↔
        ¬ ((∃ k, k < MAXCOUNT ∧ 104 ≤ observed k) ∧ observed (count + 1) = 104)) ∧
      ((∀ k, observed k ≤ observed (k + 1)) → (∀ k, observed k ≤ 104) →
        (calls ≠ [] ↔ ∃ k, k < MAXCOUNT ∧ observed k = 104)) := by
  obtain ⟨c, h1, -, h3, h4, h5⟩ :=
    capture_wait_spec observed MAXCOUNT 0 (MAXCOUNT + 1) (by omega) (by omega)
  obtain ⟨calls, hcalls⟩ := loop_decode_total packet_bits (observed (c + 1)) c hlen
  have hloop : loop_capture packet_bits observed = some (c, calls) := by
    rw [loop_capture, h1, Option.some_bind, loop_check, hcalls]
  have hc104 : PACKET_BITS_COUNT = 104 := rfl
  have hiff : calls ≠ [] ↔
      (∃ k, k < MAXCOUNT ∧ 104 ≤ observed k) ∧ observed (c + 1) = 104 := by
    constructor
    · intro hne
      by_cases hcond : observed (c + 1) = PACKET_BITS_COUNT ∧ c < MAXCOUNT
      · exact ⟨⟨c, hcond.2, h5 hcond.2⟩, by omega⟩
      · rw [loop_decode_skip _ _ _ hcond] at hcalls
        exact absurd (Option.some.inj hcalls).symm hne
    · rintro ⟨⟨k, hk, hobs⟩, hcheck⟩
      have hck : c ≤ k := by
        by_contra hlt
        have := h4 k (by omega) (by omega)
        omega
      exact loop_decode_ne_nil _ _ _ calls ⟨by omega, by omega⟩ hcalls
  refine ⟨c, calls, h1, hcalls, hloop, h3, fun j hj => h4 j (by omega) hj, h5, hiff, ?_, ?_⟩
  · rw [← hiff]
    simp
  · intro hmono hcap
    rw [hiff]
    constructor
    · rintro ⟨⟨k, hk, hobs⟩, -⟩
      have := hcap k
      exact ⟨k, hk, by omega⟩
    · rintro ⟨k, hk, hobs⟩
      refine ⟨⟨k, hk, by omega⟩, ?_⟩
      have hck : c ≤ k := by
        by_contra hlt
        have := h4 k (by omega) (by omega)
        omega
      have := h5 (by omega)
      have := hcap (c + 1)
      have := hmono c
      omega

set_option maxRecDepth 4000 in
theorem capture_wait_decides_witness :
    ∃ (count : Nat) (calls : List LcdCall),
      capture_wait observed_complete (MAXCOUNT + 1) 0 = some count ∧
      loop_decode capture_stopped (observed_complete (count + 1)) count = some calls ∧
      loop_capture capture_stopped observed_complete = some (count, calls) ∧
      count ≤ MAXCOUNT ∧
      (∀ j, j < count → observed_complete j < 104) ∧
      (count < MAXCOUNT → 104 ≤ observed_complete count) ∧
      (calls ≠ [] ↔
        (∃ k, k < MAXCOUNT ∧ 104 ≤ observed_complete k) ∧
          observed_complete (count + 1) = 104) ∧
      (calls = [] ↔
        ¬ ((∃ k, k < MAXCOUNT ∧ 104 ≤ observed_complete k) ∧
          observed_complete (count + 1) = 104)) ∧
      ((∀ k, observed_complete k ≤ observed_complete (k + 1)) →
        (∀ k, observed_complete k ≤ 104) →
        (calls ≠ [] ↔ ∃ k, k < MAXCOUNT ∧ observed_complete k = 104)) :=
  capture_wait_decides capture_stopped observed_complete (by decide)

/-- C16: every buffer read made by `get_rpm` is in bounds. For each of its eight fields
the header-corrected offset plus the width is at most 104, the 8-bit addition of the
header width and every increment of the 8-bit loop index stay below 256, and on every
104-sample buffer each of the eight calls of `build_address` / `build_data`, and
`get_rpm` itself, returns a value (a read outside the buffer would give none). -/
theorem get_rpm_reads_in_bounds (packet_bits : List Nat) (hlen : packet_bits.length = 104) :
    (∀ f ∈ get_rpm_fields,
      f.1 + 36 + f.2 ≤ 104 ∧ (f.1 + PACKET_BITS_HEADER) % 256 = f.1 + 36 ∧
      ∀ k, k < f.2 → (f.1 + 36 + k + 1) % 256 = f.1 + 36 + k + 1) ∧
    (∀ f ∈ get_rpm_fields, f.2 = 8 → (build_address packet_bits f.1).isSome = true) ∧
    (∀ f ∈ get_rpm_fields, f.2 = 9 → (build_data packet_bits f.1).isSome = true) ∧
    (get_rpm packet_bits).isSome = true := by
  obtain ⟨e0, e1, e2, e3, e4, e5, e6, e7⟩ := fields_decode packet_bits hlen
  obtain ⟨rpm, hrpm⟩ := get_rpm_total packet_bits hlen
  refine ⟨?_, ?_, ?_, ?_⟩
  · intro f hf
    simp only [get_rpm_fields, List.mem_cons, List.mem_singleton, List.not_mem_nil,
      or_false] at hf
    rcases hf with rfl | rfl | rfl | rfl | rfl | rfl | rfl | rfl <;>
      refine ⟨by decide, by decide, fun k hk => ?_⟩ <;> simp only at hk ⊢ <;> omega
  · intro f hf h8
    simp only [get_rpm_fields, List.mem_cons, List.mem_singleton, List.not_mem_nil,
      or_false] at hf
    rcases hf with rfl | rfl | rfl | rfl | rfl | rfl | rfl | rfl <;>
      simp_all
  · intro f hf h9
    simp only [get_rpm_fields, List.mem_cons, List.mem_singleton, List.not_mem_nil,
      or_false] at hf
    rcases hf with rfl | rfl | rfl | rfl | rfl | rfl | rfl | rfl <;>
      simp_all
  · simp [hrpm]

theorem get_rpm_reads_in_bounds_witness :
    (get_rpm sample_capture).isSome = true ∧
    build_data (sample_capture.take 103) 59 = none :=
  ⟨(get_rpm_reads_in_bounds sample_capture (by decide)).2.2.2, by decide⟩

/-- C17: for every 104-sample buffer, `get_rpm` returns either -1 or d1*1000 + d2*100 +
d3*10 for digits d1, d2, d3 in 0..9, computed without wrap-around in 16-bit arithmetic:
a multiple of 10 between 0 and 9990, never equal to -1. -/
theorem get_rpm_range (packet_bits : List Nat) (hlen : packet_bits.length = 104) :
    ∃ rpm : Int, get_rpm packet_bits = some rpm ∧
      (rpm = -1 ∨
        (0 ≤ rpm ∧ rpm ≤ 9990 ∧ rpm % 10 = 0 ∧ rpm ≠ -1 ∧
          ∃ d1 d2 d3 : Int, 0 ≤ d1 ∧ d1 ≤ 9 ∧ 0 ≤ d2 ∧ d2 ≤ 9 ∧ 0 ≤ d3 ∧ d3 ≤ 9 ∧
            rpm = d1 * 1000 + d2 * 100 + d3 * 10)) := by
  obtain ⟨e0, e1, e2, e3, e4, e5, e6, e7⟩ := fields_decode packet_bits hlen
  have r1 := get_digit_from_data_range (spec_field packet_bits 8 9)
  have r2 := get_digit_from_data_range (spec_field packet_bits 25 9)
  have r3 := get_digit_from_data_range (spec_field packet_bits 42 9)
  simp only [get_rpm, e0, e1, e2, e3, e4, e5, e6, e7]
  generalize get_digit_from_data (spec_field packet_bits 8 9) = d1 at r1 ⊢
  generalize get_digit_from_data (spec_field packet_bits 25 9) = d2 at r2 ⊢
  generalize get_digit_from_data (spec_field packet_bits 42 9) = d3 at r3 ⊢
  split_ifs with h1 h2 h3 h4 h5 h6 h7 h8
  all_goals first
    | exact ⟨-1, rfl, Or.inl rfl⟩
    | skip
  have hd1 : 0 ≤ d1 ∧ d1 ≤ 9 := by omega
  have hd2 : 0 ≤ d2 ∧ d2 ≤ 9 := by omega
  have hd3 : 0 ≤ d3 ∧ d3 ≤ 9 := by omega
  have hsum : int16 (int16 (int16 (0 + int16 (d1 * 1000)) + int16 (d2 * 100))
      + int16 (d3 * 10)) = d1 * 1000 + d2 * 100 + d3 * 10 := by
    unfold int16
    omega
  refine ⟨_, rfl, Or.inr ?_⟩
  rw [hsum]
  refine ⟨by omega, by omega, by omega, by omega, d1, d2, d3, hd1.1, hd1.2, hd2.1, hd2.2,
    hd3.1, hd3.2, rfl⟩

theorem get_rpm_range_witness :
    ∃ rpm : Int, get_rpm sample_capture = some rpm ∧
      (rpm = -1 ∨
        (0 ≤ rpm ∧ rpm ≤ 9990 ∧ rpm % 10 = 0 ∧ rpm ≠ -1 ∧
          ∃ d1 d2 d3 : Int, 0 ≤ d1 ∧ d1 ≤ 9 ∧ 0 ≤ d2 ∧ d2 ≤ 9 ∧ 0 ≤ d3 ∧ d3 ≤ 9 ∧
            rpm = d1 * 1000 + d2 * 100 + d3 * 10)) :=
  get_rpm_range sample_capture (by decide)

/-! ## Further properties of the resolver -/

theorem spec_msb_first_eight (l0 l1 l2 l3 l4 l5 l6 l7 : Nat) :
    spec_msb_first [l0, l1, l2, l3, l4, l5, l6, l7]
      = l0 * 2 ^ 7 + l1 * 2 ^ 6 + l2 * 2 ^ 5 + l3 * 2 ^ 4 + l4 * 2 ^ 3 + l5 * 2 ^ 2
        + l6 * 2 ^ 1 + l7 * 2 ^ 0 := by
  simp only [spec_msb_first, List.length_cons, List.length_nil]
  omega

/-- C18: the seed bit of `build_address` never reaches its result. For every 104-sample
buffer and in-range offset, `build_address offset` is the plain MSB-first binary value
of the eight line levels, the sum of bit_k * 2^(7-k), which is the value the fold gives
with seed 0; the untruncated seed-1 fold is that value plus 2^8, so the seed sits at bit
8 and is cut off by the 8-bit accumulator. -/
theorem build_address_seed_shifted_out (packet_bits : List Nat) (offset : Nat)
    (hlen : packet_bits.length = 104) (hoff : offset + 36 + 8 ≤ 104) :
    build_address packet_bits offset
      = some (((List.range 8).map (fun k =>
          spec_level (packet_bits.getD (offset + 36 + k) 0) * 2 ^ (7 - k))).sum) ∧
    build_address packet_bits offset
      = some (spec_msb_first (spec_levels packet_bits (offset + 36) 8)) ∧
    build_address packet_bits offset
      = some (spec_fold 0 (spec_levels packet_bits (offset + 36) 8)) ∧
    build_address packet_bits offset
      = some (spec_fold_width 8 0 (spec_levels packet_bits (offset + 36) 8)) ∧
    spec_fold 1 (spec_levels packet_bits (offset + 36) 8)
      = 2 ^ 8 + spec_fold 0 (spec_levels packet_bits (offset + 36) 8) := by
  have hbits := spec_levels_le_one packet_bits (offset + 36) 8
  have hlt := spec_msb_first_lt _ hbits
  rw [spec_levels_length] at hlt
  have h0 := spec_fold_eq_msb_first _ 0 hbits
  have h1 := spec_fold_eq_msb_first _ 1 hbits
  rw [spec_levels_length] at h0 h1
  have hw := spec_fold_width_eq 8 _ 0 hbits (by decide)
  have hb := build_address_eq_msb_first packet_bits offset hlen hoff
  have hh : PACKET_BITS_HEADER = 36 := rfl
  rw [hh] at hb
  have hf0 : spec_fold 0 (spec_levels packet_bits (offset + 36) 8)
      = spec_msb_first (spec_levels packet_bits (offset + 36) 8) := by omega
  refine ⟨?_, hb, by rw [hf0]; exact hb, ?_, by omega⟩
  · rw [hb]
    simp only [spec_levels, List.range_succ, List.range_zero, List.nil_append,
      List.cons_append, List.map_cons, List.map_nil, spec_msb_first_eight, List.sum_cons,
      List.sum_nil]
    simp only [Nat.add_zero, Nat.sub_zero, Nat.sub_self]
    congr 1
    omega
  · rw [hw, hf0, Nat.mod_eq_of_lt hlt]
    exact hb

theorem build_address_seed_shifted_out_witness :
    build_address sample_capture 51 = some 0xA3 ∧
    spec_fold 0 (spec_levels sample_capture (51 + 36) 8) = 0xA3 ∧
    spec_fold 1 (spec_levels sample_capture (51 + 36) 8) = 0x1A3 :=
  ⟨by decide,
   by decide,
   by
    rw [(build_address_seed_shifted_out sample_capture 51 (by decide) (by decide)).2.2.2.2]
    decide⟩

theorem spec_levels_congr (b1 b2 : List Nat) (start width : Nat)
    (h : ∀ i, start ≤ i → i < start + width →
      (b1.getD i 0).testBit 4 = (b2.getD i 0).testBit 4) :
    spec_levels b1 start width = spec_levels b2 start width := by
  unfold spec_levels
  apply List.map_congr_left
  intro k hk
  have hk2 : k < width := List.mem_range.1 hk
  unfold spec_level
  rw [h (start + k) (by omega) (by omega)]

/-- C19: `get_rpm` depends only on bit 4 of the samples at buffer indices 36..103: two
104-sample buffers that agree on that bit at each of those indices give the same
result, whatever the 36 header samples and the other seven bits of every sample are. -/
theorem get_rpm_depends_on_bit4 (b1 b2 : List Nat)
    (h1 : b1.length = 104) (h2 : b2.length = 104)
    (hagree : ∀ i, i < 104 → 36 ≤ i →
      (b1.getD i 0).testBit 4 = (b2.getD i 0).testBit 4) :
    get_rpm b1 = get_rpm b2 := by
  obtain ⟨e0, e1, e2, e3, e4, e5, e6, e7⟩ := fields_decode b1 h1
  obtain ⟨f0, f1, f2, f3, f4, f5, f6, f7⟩ := fields_decode b2 h2
  have hh : PACKET_BITS_HEADER = 36 := rfl
  have key : ∀ offset width, offset + 36 + width ≤ 104 →
      spec_field b1 offset width = spec_field b2 offset width := by
    intro offset width hw
    unfold spec_field
    rw [hh, spec_levels_congr b1 b2 (offset + 36) width
      (fun i hi1 hi2 => hagree i (by omega) (by omega))]
  simp only [get_rpm, e0, e1, e2, e3, e4, e5, e6, e7, f0, f1, f2, f3, f4, f5, f6, f7,
    key 0 8 (by omega), key 8 9 (by omega), key 17 8 (by omega), key 25 9 (by omega),
    key 34 8 (by omega), key 42 9 (by omega), key 51 8 (by omega), key 59 9 (by omega)]

theorem get_rpm_depends_on_bit4_witness :
    capture_noisy.take 36 ≠ sample_capture.take 36 ∧
    get_rpm capture_noisy = get_rpm sample_capture :=
  ⟨by decide, get_rpm_depends_on_bit4 capture_noisy sample_capture (by decide) (by decide)
    (by decide)⟩

/-- C20: decoding an all-zero buffer, which is what the clearing loop leaves of any
104-entry buffer, yields -1 and not the reading 0, and the decode step of `loop` then
shows the error text, not "Stopped". -/
theorem get_rpm_cleared_buffer :
    get_rpm (List.replicate 104 0) = some (-1) ∧
    get_rpm (List.replicate 104 0) ≠ some 0 ∧
    (∀ packet_bits : List Nat, packet_bits.length = 104 →
      ∃ cleared pos, clear_loop packet_bits 257 0 = some (cleared, pos) ∧
        get_rpm cleared = some (-1)) ∧
    spec_payload ((loop_decode (List.replicate 104 0) 104 0).getD [])
      = [.print_text "err2"] := by
  refine ⟨by decide, by decide, ?_, by decide⟩
  intro packet_bits hlen
  exact ⟨_, _, clear_loop_eq packet_bits hlen, by decide⟩

end SC2Display
